import Mathlib

/-!
Verification of the peak-shaving charging strategy (spice_ev).

Shallow embedding of the source files:
  - src/spice_ev/strategies/peak_shaving.py (class PeakShaving)
  - src/src/util.py (clamp_power)

Real-number quantities (power in kW, energy in kWh, state of charge) are
modelled as rationals.  Times are modelled as integers (an arbitrary
resolution); time intervals likewise.
-/

namespace SpiceEV

/-- Charging-station limits (data model, spec section 3: min_power/max_power). -/
structure ChargingStation where
  min_power : ℚ
  max_power : ℚ
deriving DecidableEq

/-- Modelled from the spec: the vehicle-type record carries the vehicle's
minimum and maximum charging-power limits (the vehicle class itself is not
part of the sources; spec sections 3 and 6 describe station/vehicle min/max
power limits).  The source function clamp_power reads only
vehicle.vehicle_type.min_charging_power. -/
structure VehicleType where
  min_charging_power : ℚ
  max_charging_power : ℚ
deriving DecidableEq

/-- Vehicle as consumed by clamp_power: only the vehicle_type field is read. -/
structure Vehicle where
  vehicle_type : VehicleType
deriving DecidableEq

/-- Embedding of clamp_power from src/src/util.py lines 74-78:
power is first capped at the station maximum, then replaced by 0 whenever
the capped value lies below the station minimum or below the vehicle's
minimum charging power. -/
def clamp_power (power : ℚ) (vehicle : Vehicle) (cs : ChargingStation) : ℚ :=
  let p := min power cs.max_power
  if p < cs.min_power ∨ p < vehicle.vehicle_type.min_charging_power then 0 else p

/-! ## Forecast timestep info (spec section 3, TimestepInfo) -/

/-- One entry of the forecast's timesteps list: the aggregate projected load
and the max_power ceiling at that future timestep. -/
structure TSInfo where
  cur_power : ℚ
  max_power : ℚ
deriving DecidableEq

instance : Inhabited TSInfo := ⟨⟨0, 0⟩⟩

/-! ## Battery balancing (peak_shaving.py lines 210-225) -/

/-- Embedding of the stationary-battery balancing block of step_gc
(lines 210-225).  The first timestep's cur_power is replaced by the
connector's live current load, the horizon average of the non-negative
projected powers is computed against timesteps_ahead, and the battery is
charged/discharged only when the difference to the current load reaches the
battery's minimum charging power.  The battery charge model is abstract
(state type B with load/unload returning delivered average power, per the
spec's section 6 contract). -/
def battery_balance {B : Type} (timesteps_ahead : ℕ) (curve : List ℚ)
    (current_load : ℚ) (min_charging_power : ℚ)
    (bat_load bat_unload : B → ℚ → ℚ × B) (b : B) : ℚ :=
  let curve0 := curve.set 0 current_load
  let avg_power0 := (curve0.map (fun ts => max ts 0)).sum / (timesteps_ahead : ℚ)
  let avg_power := max avg_power0 0
  let delta_power := avg_power - current_load
  if min_charging_power ≤ delta_power then (bat_load b delta_power).1
  else if delta_power ≤ -min_charging_power then -((bat_unload b (-delta_power)).1)
  else 0

/-- Embedding of GridConnector.add_load for the battery: the power recorded
for a named component. -/
def add_load (loads : List (ℕ × ℚ)) (component : ℕ) (power : ℚ) : List (ℕ × ℚ) :=
  loads ++ [(component, power)]

/-! ## Perfect-foresight initialization (peak_shaving.py lines 19-36) -/

/-- An event as far as the perfect-foresight initialization is concerned:
its start time, its signal time, and an identifying tag for the rest of the
payload. -/
structure PFEvent where
  start_time : ℤ
  signal_time : ℤ
  tag : ℕ
deriving DecidableEq

/-- Embedding of the per-event mutation in PeakShaving.__init__ lines 29-32:
signal_time is first lowered to at most start_time - HORIZON, then raised to
at least the simulation start time. -/
def pf_adjust (start_time HORIZON : ℤ) (e : PFEvent) : PFEvent :=
  let s1 := min e.signal_time (e.start_time - HORIZON)
  let s2 := max s1 start_time
  { e with signal_time := s2 }

/-- Ordering of events by start_time, used by the final sort in __init__
line 36. -/
def pf_le (a b : PFEvent) : Prop := a.start_time ≤ b.start_time

instance : DecidableRel pf_le :=
  fun a b => inferInstanceAs (Decidable (a.start_time ≤ b.start_time))

instance : IsTotal PFEvent pf_le := ⟨fun a b => Int.le_total a.start_time b.start_time⟩

instance : IsTrans PFEvent pf_le := ⟨fun _ _ _ hab hbc => le_trans hab hbc⟩

/-- Embedding of the perfect-foresight preprocessing of PeakShaving.__init__
lines 19-36: every event's signal_time is rewritten by pf_adjust, and the
event list is sorted ascending by start_time. -/
def pf_init (start_time HORIZON : ℤ) (events : List PFEvent) : List PFEvent :=
  List.insertionSort pf_le (events.map (pf_adjust start_time HORIZON))

/-! ## Forecast replay of vehicle events (peak_shaving.py lines 122-159) -/

/-- Forecast-local vehicle snapshot: the fields of the deep-copied vehicle
that the event replay reads and writes. -/
structure SimVeh where
  soc : ℚ
  desired_soc : ℚ
  estimated_time_of_departure : Option ℤ
  connected_charging_station : Option ℕ
deriving DecidableEq

/-- Payload of a vehicle arrival event (event.update in the source). -/
structure ArrUpdate where
  connected_charging_station : Option ℕ
  desired_soc : ℚ
  soc_delta : ℚ
  estimated_time_of_departure : Option ℤ
deriving DecidableEq

/-- The two kinds of vehicle events. -/
inductive VAction where
  | departure : VAction
  | arrival : ArrUpdate → VAction
deriving DecidableEq

/-- A vehicle event as replayed by step_gc. -/
structure VehicleEventE where
  start_time : ℤ
  vehicle_id : ℕ
  action : VAction
deriving DecidableEq

/-- VehicleArrivalRecord (spec section 3): one standing interval of one
vehicle within the forecast. -/
structure VRec where
  vid : ℕ
  arrival_idx : ℕ
  depart_idx : Option ℤ
deriving DecidableEq

instance : Inhabited VRec := ⟨⟨0, 0, none⟩⟩

/-- Context carried by the assertion message of the double-arrival check
(peak_shaving.py lines 146-148): vehicle id, event start time, the previous
record index and the current timestep index. -/
structure AssertErr where
  vid : ℕ
  start_time : ℤ
  prev_idx : ℕ
  timestep_idx : ℕ
deriving DecidableEq

/-- Mutable state of the forecast replay: the deep-copied vehicle snapshots,
the map from vehicle id to its open arrival-record index at this connector
(gc_info["vehicles"]), and the arrival records. -/
structure ReplaySt where
  sim_vehicles : List (ℕ × SimVeh)
  gc_vehicles : List (ℕ × ℕ)
  vehicle_arrivals : List VRec
deriving DecidableEq

/-- In-place update of one vehicle of an id-to-vehicle map. -/
def upd_vehicle (l : List (ℕ × SimVeh)) (vid : ℕ) (f : SimVeh → SimVeh) :
    List (ℕ × SimVeh) :=
  l.map (fun p => if p.1 = vid then (p.1, f p.2) else p)

/-- Python ceiling division -(-delta_t // interval) (lines 71 and 153),
with // the floor division. -/
def ceil_div_idx (delta_t interval : ℤ) : ℤ := -((-delta_t).fdiv interval)

/-- depart_idx computed from an estimated time of departure (lines 150-153). -/
def depart_idx_of (current_time interval : ℤ) (est : Option ℤ) : Option ℤ :=
  match est with
  | none => none
  | some t => some (ceil_div_idx (t - current_time) interval)

/-- Embedding of the vehicle-event branch of the forecast replay
(peak_shaving.py lines 122-159).  A departure closes the vehicle's open
record (if any) and snaps the snapshot state of charge up to desired_soc;
an arrival carrying a connection update rewrites the snapshot vehicle and,
when the target station belongs to this connector, either fails the
double-arrival assertion or opens a new arrival record. -/
def process_vehicle_event (gc_id : ℕ) (parent : ℕ → Option ℕ)
    (current_time interval : ℤ) (timestep_idx : ℕ)
    (st : ReplaySt) (e : VehicleEventE) : Except AssertErr ReplaySt :=
  match e.action with
  | VAction.departure =>
    let st1 :=
      match st.gc_vehicles.lookup e.vehicle_id with
      | some v_idx =>
        { st with
          gc_vehicles := st.gc_vehicles.filter (fun p => p.1 != e.vehicle_id),
          vehicle_arrivals :=
            st.vehicle_arrivals.set v_idx
              { st.vehicle_arrivals.getD v_idx default with
                  depart_idx := some (timestep_idx : ℤ) } }
      | none => st
    Except.ok
      { st1 with
        sim_vehicles := upd_vehicle st1.sim_vehicles e.vehicle_id
          (fun v => { v with soc := max v.soc v.desired_soc }) }
  | VAction.arrival upd =>
    match upd.connected_charging_station with
    | none => Except.ok st
    | some cs_id =>
      let st1 :=
        { st with
          sim_vehicles := upd_vehicle st.sim_vehicles e.vehicle_id
            (fun v =>
              { v with
                desired_soc := upd.desired_soc,
                soc := v.soc + upd.soc_delta,
                estimated_time_of_departure := upd.estimated_time_of_departure,
                connected_charging_station := some cs_id }) }
      if parent cs_id = some gc_id then
        match st1.gc_vehicles.lookup e.vehicle_id with
        | some prev_idx =>
          Except.error ⟨e.vehicle_id, e.start_time, prev_idx, timestep_idx⟩
        | none =>
          Except.ok
            { st1 with
              gc_vehicles := st1.gc_vehicles ++ [(e.vehicle_id, st1.vehicle_arrivals.length)],
              vehicle_arrivals := st1.vehicle_arrivals ++
                [⟨e.vehicle_id, timestep_idx,
                  depart_idx_of current_time interval upd.estimated_time_of_departure⟩] }
      else Except.ok st1

/-- Replay of a stream of vehicle events, each tagged with the timestep index
at which it is applied; the first failing assertion aborts the replay. -/
def replay_events (gc_id : ℕ) (parent : ℕ → Option ℕ) (current_time interval : ℤ) :
    List (ℕ × VehicleEventE) → ReplaySt → Except AssertErr ReplaySt
  | [], st => Except.ok st
  | (tsIdx, e) :: rest, st =>
    match process_vehicle_event gc_id parent current_time interval tsIdx st e with
    | Except.error err => Except.error err
    | Except.ok st1 => replay_events gc_id parent current_time interval rest st1

/-- Presence automaton over the event stream: which vehicles currently have
an open arrival record at this connector, tracked purely from the events. -/
def pres_step (gc_id : ℕ) (parent : ℕ → Option ℕ) (pres : List ℕ)
    (e : VehicleEventE) : List ℕ :=
  match e.action with
  | VAction.departure => pres.filter (fun v => v != e.vehicle_id)
  | VAction.arrival upd =>
    match upd.connected_charging_station with
    | none => pres
    | some cs_id =>
      if parent cs_id = some gc_id then pres ++ [e.vehicle_id] else pres

/-- An event stream has no double arrival (relative to an initial presence
set) when no arrival that connects to a station of this connector names a
vehicle already present. -/
def no_double_arrival (gc_id : ℕ) (parent : ℕ → Option ℕ) :
    List ℕ → List (ℕ × VehicleEventE) → Bool
  | _, [] => true
  | pres, (_, e) :: rest =>
    (match e.action with
      | VAction.departure => true
      | VAction.arrival upd =>
        match upd.connected_charging_station with
        | none => true
        | some cs_id =>
          if parent cs_id = some gc_id then decide (e.vehicle_id ∉ pres) else true)
    && no_double_arrival gc_id parent (pres_step gc_id parent pres e) rest

/-- Embedding of the deepcopy at peak_shaving.py line 58 followed by the
event replay: the authoritative vehicle map is copied by value into the
replay state and returned unchanged alongside the replay outcome. -/
def forecast_replay (gc_id : ℕ) (parent : ℕ → Option ℕ) (current_time interval : ℤ)
    (world_vehicles : List (ℕ × SimVeh)) (gcv0 : List (ℕ × ℕ)) (va0 : List VRec)
    (evs : List (ℕ × VehicleEventE)) :
    List (ℕ × SimVeh) × Except AssertErr ReplaySt :=
  (world_vehicles,
    replay_events gc_id parent current_time interval evs ⟨world_vehicles, gcv0, va0⟩)

/-- Concrete input showing that clamp_power does not cap at the vehicle's
maximum power limit. -/
def c8_vehicle : Vehicle := ⟨⟨0, 5⟩⟩

/-- Station used in the C8 counterexample. -/
def c8_cs : ChargingStation := ⟨0, 100⟩

/-- Correspondence between the replay state's presence map and the presence
automaton: a vehicle has an open record exactly when the automaton tracks it
as present. -/
def gc_pres_inv (st : ReplaySt) (pres : List ℕ) : Prop :=
  ∀ v, (st.gc_vehicles.lookup v).isSome ↔ v ∈ pres

/-! ## The fill algorithm fast_charge (peak_shaving.py lines 228-287) -/

/-- Lexicographic order on (cur_power, timestep index) pairs: the order in
which Python sorts the tuples of power_levels (line 239). -/
def lex_le (a b : ℚ × ℕ) : Prop := a.1 < b.1 ∨ (a.1 = b.1 ∧ a.2 ≤ b.2)

instance : DecidableRel lex_le :=
  fun a b => inferInstanceAs (Decidable (a.1 < b.1 ∨ (a.1 = b.1 ∧ a.2 ≤ b.2)))

instance : IsTotal (ℚ × ℕ) lex_le := by
  constructor
  intro a b
  rcases lt_trichotomy a.1 b.1 with h | h | h
  · exact Or.inl (Or.inl h)
  · rcases le_total a.2 b.2 with h2 | h2
    · exact Or.inl (Or.inr ⟨h, h2⟩)
    · exact Or.inr (Or.inr ⟨h.symm, h2⟩)
  · exact Or.inr (Or.inl h)

instance : IsTrans (ℚ × ℕ) lex_le := by
  constructor
  intro a b c hab hbc
  rcases hab with h1 | ⟨h1, h1x⟩ <;> rcases hbc with h2 | ⟨h2, h2x⟩
  · exact Or.inl (h1.trans h2)
  · exact Or.inl (h2 ▸ h1)
  · exact Or.inl (h1 ▸ h2)
  · exact Or.inr ⟨h1.trans h2, h1x.trans h2x⟩

/-- Ordering by timestep index, under which the charged level pairs are
re-sorted before application (line 278). -/
def idx_le (a b : ℚ × ℕ) : Prop := a.2 ≤ b.2

instance : DecidableRel idx_le :=
  fun a b => inferInstanceAs (Decidable (a.2 ≤ b.2))

instance : IsTotal (ℚ × ℕ) idx_le := ⟨fun a b => Nat.le_total a.2 b.2⟩

instance : IsTrans (ℚ × ℕ) idx_le := ⟨fun _ _ _ hab hbc => le_trans hab hbc⟩

/-- Inner energy loop of fast_charge (lines 252-258): the energy obtainable
by raising the window's timesteps to the candidate level, capped by each
timestep's max_power and floored at 0, converted to energy by the interval
length ts_per_hour and the battery efficiency eff. -/
def window_energy (window : List TSInfo) (power ts_per_hour eff : ℚ) : ℚ :=
  (window.map (fun info => max (min power info.max_power - info.cur_power) 0)).sum /
    (ts_per_hour / eff)

/-- Result of the level sweep (the while loop of lines 247-268): the number
of level positions passed (idx), the last fully used level (prev_power), the
energy obtainable at that level (prev_energy), the current power variable,
and whether the loop ended through the interpolation break of lines 260-265. -/
structure SweepResult where
  idx : ℕ
  prev_power : ℚ
  prev_energy : ℚ
  power : ℚ
  broke : Bool
deriving DecidableEq

/-- The while loop of fast_charge lines 247-268.  Positions whose level is
within EPS of prev_power are skipped; otherwise the energy at the candidate
level is computed over the window; if it overshoots energy_needed by more
than EPS the fill level is interpolated linearly and the loop breaks,
otherwise the candidate becomes the new prev level.  The loop terminates
because the candidate either is skipped (idx grows) or becomes prev_power
(after which it is skipped); this needs 0 < EPS, which the source guarantees
by construction of the strategy's numeric tolerance self.EPS. -/
def sweep (EPS ts_per_hour eff energy_needed : ℚ) (hEPS : 0 < EPS)
    (window : List TSInfo) (power_levels : List (ℚ × ℕ))
    (idx : ℕ) (prev_power prev_energy power : ℚ) : SweepResult :=
  if h : idx < power_levels.length ∧ EPS < energy_needed - prev_energy then
    if hc : (power_levels.getD idx (0, 0)).1 - prev_power < EPS then
      sweep EPS ts_per_hour eff energy_needed hEPS window power_levels
        (idx + 1) prev_power prev_energy power
    else
      let cand := (power_levels.getD idx (0, 0)).1
      let energy := window_energy window cand ts_per_hour eff
      if EPS < energy - energy_needed then
        ⟨idx, prev_power, energy_needed,
          prev_power +
            (1 - (energy - energy_needed) / (energy - prev_energy)) * (cand - prev_power),
          true⟩
      else
        sweep EPS ts_per_hour eff energy_needed hEPS window power_levels
          idx cand energy cand
  else ⟨idx, prev_power, prev_energy, power, false⟩
termination_by
  2 * (power_levels.length - idx) +
    (if (power_levels.getD idx (0, 0)).1 - prev_power < EPS then 0 else 1)
decreasing_by
· rw [if_pos hc]
  have h1 : idx < power_levels.length := h.1
  have h2 : (if (power_levels.getD (idx + 1) (0, 0)).1 - prev_power < EPS then 0 else 1) ≤ 1 := by
    split
    · omega
    · omega
  omega
· rw [if_neg hc]
  have h0 : (power_levels.getD idx (0, 0)).1 - (power_levels.getD idx (0, 0)).1 < EPS := by
    simpa using hEPS
  rw [if_pos h0]
  omega

/-- The application loop of fast_charge (lines 276-287): pairs are processed
in timestep order; for each, the requested power is the fill level plus the
accumulated shortfall delta, capped by the timestep's max_power, minus the
level recorded for that timestep, then clamped by clamp_power; the battery
model delivers an actual average power which is added to the timestep's
cur_power, the shortfall is accumulated into delta, and the pair at timestep
index 0 determines the returned command. -/
def apply_charge {B : Type} (vehicle : Vehicle) (cs : ChargingStation)
    (bat_load : B → ℚ → ℚ × B) (opt_power : ℚ) :
    List (ℚ × ℕ) → List TSInfo → B → ℚ → ℚ → ℚ × List TSInfo × B
  | [], timesteps, b, _, command => (command, timesteps, b)
  | pl :: rest, timesteps, b, delta, command =>
    let info := timesteps.getD pl.2 default
    let power0 := min (opt_power + delta) info.max_power - pl.1
    let power := clamp_power power0 vehicle cs
    let res := bat_load b power
    let avg_power := res.1
    let timesteps1 := timesteps.set pl.2 { info with cur_power := info.cur_power + avg_power }
    apply_charge vehicle cs bat_load opt_power rest timesteps1 res.2
      (delta + (power - avg_power)) (if pl.2 = 0 then power else command)

/-- The power_levels list of fast_charge lines 238-239: (cur_power, i) for
each timestep index of the standing window, sorted ascending. -/
def fc_levels (arrival_idx depart_idx : ℕ) (timesteps : List TSInfo) : List (ℚ × ℕ) :=
  List.insertionSort lex_le
    ((List.range' arrival_idx (depart_idx - arrival_idx)).map
      (fun i => ((timesteps.getD i default).cur_power, i)))

/-- The window slice timesteps[arrival_idx:depart_idx] of line 254. -/
def fc_window (arrival_idx depart_idx : ℕ) (timesteps : List TSInfo) : List TSInfo :=
  (timesteps.drop arrival_idx).take (depart_idx - arrival_idx)

/-- The sweep as fast_charge runs it (lines 242-268): starting at position 0
with prev_power the lowest level, prev_energy 0 and power 0. -/
def fc_sweep (EPS ts_per_hour eff energy_needed : ℚ) (hEPS : 0 < EPS)
    (arrival_idx depart_idx : ℕ) (timesteps : List TSInfo) : SweepResult :=
  sweep EPS ts_per_hour eff energy_needed hEPS
    (fc_window arrival_idx depart_idx timesteps)
    (fc_levels arrival_idx depart_idx timesteps)
    0 ((fc_levels arrival_idx depart_idx timesteps).getD 0 (0, 0)).1 0 0

/-- The resolved fill level (lines 269-274): after the sweep, if the energy
need is still unmet by more than EPS, the deficit is distributed evenly in
power terms over the idx levels passed, ignoring the max_power ceilings;
otherwise the sweep's power variable is used. -/
def fc_opt_power (EPS ts_per_hour eff energy_needed : ℚ) (hEPS : 0 < EPS)
    (arrival_idx depart_idx : ℕ) (timesteps : List TSInfo) : ℚ :=
  let s := fc_sweep EPS ts_per_hour eff energy_needed hEPS arrival_idx depart_idx timesteps
  if EPS < energy_needed - s.prev_energy then
    s.prev_power + (energy_needed - s.prev_energy) * ts_per_hour / (s.idx : ℚ) / eff
  else s.power

/-- Embedding of fast_charge (peak_shaving.py lines 228-287).  The battery
charge model is abstract: bat_load b p returns the delivered average power
and the successor battery state (modelled from the spec's section 6 battery
contract, since the physical model is outside the sources).  Returns the
command for timestep 0 together with the updated timesteps list. -/
def fast_charge {B : Type} (EPS ts_per_hour : ℚ) (hEPS : 0 < EPS)
    (vehicle : Vehicle) (cs : ChargingStation) (eff : ℚ)
    (bat_load : B → ℚ → ℚ × B) (b : B)
    (arrival_idx depart_idx : ℕ) (energy_needed : ℚ)
    (timesteps : List TSInfo) : ℚ × List TSInfo :=
  if energy_needed ≤ 0 then (0, timesteps)
  else
    let s := fc_sweep EPS ts_per_hour eff energy_needed hEPS arrival_idx depart_idx timesteps
    let opt_power :=
      fc_opt_power EPS ts_per_hour eff energy_needed hEPS arrival_idx depart_idx timesteps
    let pfx := List.insertionSort idx_le
      ((fc_levels arrival_idx depart_idx timesteps).take s.idx)
    let r := apply_charge vehicle cs bat_load opt_power pfx timesteps b 0 0
    (r.1, r.2.1)

/-! ## Vehicle selection, ordering and horizon truncation (lines 166-195) -/

/-- A vehicle arrival record as consumed by the scheduling loop of step_gc:
id, standing window, and the battery fields that determine energy need. -/
structure SchedVehicle where
  vid : ℕ
  arrival_idx : ℕ
  depart_idx : Option ℤ
  soc : ℚ
  desired_soc : ℚ
  capacity : ℚ
deriving DecidableEq

/-- Modelled from the spec: get_energy_needed (section 4.2) is battery
capacity times (desired_soc - current soc); the vehicle battery class is not
part of the sources. -/
def get_energy_needed (v : SchedVehicle) : ℚ := v.capacity * (v.desired_soc - v.soc)

/-- Sorting key of line 171: min(depart_idx, timesteps_ahead) - arrival_idx. -/
def sched_key (H : ℕ) (v : SchedVehicle) : ℤ :=
  min (v.depart_idx.getD 0) (H : ℤ) - (v.arrival_idx : ℤ)

/-- Ordering of vehicles by standing time (shortest first), line 170. -/
def sched_le (H : ℕ) (a b : SchedVehicle) : Prop := sched_key H a ≤ sched_key H b

instance (H : ℕ) : DecidableRel (sched_le H) :=
  fun a b => inferInstanceAs (Decidable (sched_key H a ≤ sched_key H b))

instance (H : ℕ) : IsTotal SchedVehicle (sched_le H) :=
  ⟨fun a b => Int.le_total (sched_key H a) (sched_key H b)⟩

instance (H : ℕ) : IsTrans SchedVehicle (sched_le H) :=
  ⟨fun _ _ _ hab hbc => le_trans hab hbc⟩

/-- Lines 166-171: drop vehicles with unknown departure, sort the rest
ascending by visible standing time. -/
def select_vehicles (H : ℕ) (arrivals : List SchedVehicle) : List SchedVehicle :=
  List.insertionSort (sched_le H) (arrivals.filter (fun v => v.depart_idx.isSome))

/-- Lines 184-191: if depart_idx exceeds the horizon, scale energy_needed by
the visible fraction of the standing time, move desired_soc toward the
current soc by the same fraction, and clamp depart_idx to the horizon.
Returns (energy_needed, desired_soc, depart_idx). -/
def truncate_horizon (H : ℕ) (arrival_idx : ℕ) (depart_idx : ℤ)
    (energy_needed soc desired_soc : ℚ) : ℚ × ℚ × ℤ :=
  if (H : ℤ) < depart_idx then
    let f : ℚ := ((H : ℚ) - (arrival_idx : ℚ)) / ((depart_idx : ℚ) - (arrival_idx : ℚ))
    (energy_needed * f, soc + f * (desired_soc - soc), (H : ℤ))
  else (energy_needed, desired_soc, depart_idx)

/-- Body of the scheduling loop (lines 174-195) for one vehicle: skip
vehicles without standing time, otherwise compute the energy need, apply the
horizon truncation and run the fill algorithm, returning the vehicle's
command and the updated projection. -/
def process_vehicle {B : Type} (EPS ts_per_hour : ℚ) (hEPS : 0 < EPS)
    (vehicle : Vehicle) (cs : ChargingStation) (eff : ℚ)
    (bat_load : B → ℚ → ℚ × B) (b : B) (H : ℕ)
    (v : SchedVehicle) (timesteps : List TSInfo) : Option ℚ × List TSInfo :=
  match v.depart_idx with
  | none => (none, timesteps)
  | some dep =>
    if (v.arrival_idx : ℤ) ≥ dep then (none, timesteps)
    else
      let en := get_energy_needed v
      let t := truncate_horizon H v.arrival_idx dep en v.soc v.desired_soc
      let r := fast_charge EPS ts_per_hour hEPS vehicle cs eff bat_load b
        v.arrival_idx t.2.2.toNat t.1 timesteps
      (some r.1, r.2)

/-- The sequential scheduling loop (lines 174-195): vehicles are processed in
order, each one water-filling against the projection left by its
predecessors; the recorded schedules are returned per vehicle id. -/
def sched_vehicles {B : Type} (EPS ts_per_hour : ℚ) (hEPS : 0 < EPS)
    (vehicle : Vehicle) (cs : ChargingStation) (eff : ℚ)
    (bat_load : B → ℚ → ℚ × B) (b : B) (H : ℕ) :
    List SchedVehicle → List TSInfo → List (ℕ × ℚ) × List TSInfo
  | [], timesteps => ([], timesteps)
  | v :: rest, timesteps =>
    let r := process_vehicle EPS ts_per_hour hEPS vehicle cs eff bat_load b H v timesteps
    let rest_r := sched_vehicles EPS ts_per_hour hEPS vehicle cs eff bat_load b H rest r.2
    match r.1 with
    | some cmd => ((v.vid, cmd) :: rest_r.1, rest_r.2)
    | none => rest_r

end SpiceEV

namespace SpiceEV

/-! ## Theorems for claim C8 (clamp_power contract) -/

/-- Claim C8 (counterexample): clamp_power is claimed to cap the power to the
vehicle's maximum power limit as well as the station's; at power 50 with a
vehicle whose maximum charging power is 5 and a station allowing 100, the
source function returns 50, strictly above the vehicle maximum.  Hence the
claim as stated is false. -/
theorem c8_clamp_power_not_vehicle_capped :
    clamp_power 50 c8_vehicle c8_cs = 50 ∧
      c8_vehicle.vehicle_type.max_charging_power < clamp_power 50 c8_vehicle c8_cs := by
  constructor <;> norm_num [clamp_power, c8_vehicle, c8_cs]

/-- Claim C8 (amended): for every power value, vehicle and charging station,
clamp_power returns the power capped to the station's maximum power limit,
and returns 0 whenever the capped power lies below the station's min_power
or below the vehicle's minimum charging power; the vehicle's maximum power
limit is not consulted. -/
theorem c8_clamp_power_contract (power : ℚ) (v : Vehicle) (cs : ChargingStation) :
    clamp_power power v cs =
      (if min power cs.max_power < cs.min_power ∨
          min power cs.max_power < v.vehicle_type.min_charging_power then 0
        else min power cs.max_power) := by
  rfl

/-! ## Theorems for claim C6 (battery balancing idempotence) -/

/-- Claim C6: for every stationary battery with positive min_charging_power,
whenever the connector's current load already equals the horizon average of
the clamped (non-negative) projected power curve, the balancing block takes
neither the charge nor the discharge branch (the result is 0 for every
battery charge model) and the battery power recorded via add_load is 0. -/
theorem c6_battery_balance_idempotent {B : Type} (timesteps_ahead : ℕ)
    (curve : List ℚ) (current_load min_charging_power : ℚ)
    (bat_load bat_unload : B → ℚ → ℚ × B) (b : B) (loads : List (ℕ × ℚ)) (bid : ℕ)
    (hmin : 0 < min_charging_power)
    (hload : current_load =
      max (((curve.set 0 current_load).map (fun ts => max ts 0)).sum /
        (timesteps_ahead : ℚ)) 0) :
    battery_balance timesteps_ahead curve current_load min_charging_power
        bat_load bat_unload b = 0 ∧
      add_load loads bid
        (battery_balance timesteps_ahead curve current_load min_charging_power
          bat_load bat_unload b) = loads ++ [(bid, 0)] := by
  have hz : battery_balance timesteps_ahead curve current_load min_charging_power
      bat_load bat_unload b = 0 := by
    simp only [battery_balance]
    rw [← hload]
    have h3 : ¬ min_charging_power ≤ (0 : ℚ) := not_le_of_lt hmin
    have h4 : ¬ (0 : ℚ) ≤ -min_charging_power := by simpa using h3
    simp [sub_self, h3, h4]
  exact ⟨hz, by rw [hz]; rfl⟩

/-- Witness for claim C6 at a concrete input: horizon of 2 timesteps with
projected curve [3, 5], current load 5 (= the average after the live load is
written into slot 0), battery minimum charging power 1; the recorded battery
power is 0. -/
theorem c6_battery_balance_idempotent_witness :
    (0 : ℚ) < 1 ∧
      (5 : ℚ) = max ((([(3 : ℚ), 5].set 0 5).map (fun ts => max ts 0)).sum / ((2 : ℕ) : ℚ)) 0 ∧
      battery_balance 2 [(3 : ℚ), 5] 5 1 (fun (b : Unit) p => (p, b))
        (fun (b : Unit) p => (p, b)) () = 0 := by
  have h1 : (0 : ℚ) < 1 := by norm_num
  have h2 : (5 : ℚ) =
      max ((([(3 : ℚ), 5].set 0 5).map (fun ts => max ts 0)).sum / ((2 : ℕ) : ℚ)) 0 := by
    norm_num
  exact ⟨h1, h2,
    (c6_battery_balance_idempotent 2 [(3 : ℚ), 5] 5 1 (fun (b : Unit) p => (p, b))
      (fun (b : Unit) p => (p, b)) () [] 0 h1 h2).1⟩

/-! ## Theorems for claim C7 (perfect-foresight initialization) -/

/-- Claim C7: initialization rewrites every event's signal_time to the old
value clamped between start_time - HORIZON (from above) and the simulation
start time (from below) - so the new signal_time never precedes the
simulation start, and is at least one horizon before start_time whenever
that does not precede the simulation start - and the resulting event list is
a permutation of the adjusted events sorted ascending by start_time. -/
theorem c7_pf_init_clamps_and_sorts (start_time HORIZON : ℤ) (events : List PFEvent) :
    (pf_init start_time HORIZON events).Sorted pf_le ∧
      (pf_init start_time HORIZON events).Perm
        (events.map (pf_adjust start_time HORIZON)) ∧
      (∀ e : PFEvent,
        (pf_adjust start_time HORIZON e).signal_time =
          max (min e.signal_time (e.start_time - HORIZON)) start_time ∧
        (pf_adjust start_time HORIZON e).start_time = e.start_time ∧
        start_time ≤ (pf_adjust start_time HORIZON e).signal_time ∧
        (start_time ≤ e.start_time - HORIZON →
          (pf_adjust start_time HORIZON e).signal_time ≤ e.start_time - HORIZON)) := by
  refine ⟨List.sorted_insertionSort pf_le _, List.perm_insertionSort pf_le _, ?_⟩
  intro e
  refine ⟨rfl, rfl, le_max_right _ _, ?_⟩
  intro h
  simp only [pf_adjust]
  exact max_le (min_le_right _ _) h

/-! ## Theorems for claims C5 and C9 (forecast replay) -/

/-- Looking up a key other than the erased one is unaffected by erasing. -/
theorem lookup_filter_ne (l : List (ℕ × ℕ)) (vid v : ℕ) (h : v ≠ vid) :
    (l.filter (fun p => p.1 != vid)).lookup v = l.lookup v := by
  induction l with
  | nil => rfl
  | cons a l ih =>
    rcases a with ⟨k, i⟩
    by_cases hk : k = vid
    · have h1 : (((k, i) : ℕ × ℕ).1 != vid) = false := by simp [hk]
      have h2 : (v == k) = false := by simp [hk, h]
      simp [List.filter_cons, h1, List.lookup, h2, ih]
    · have h1 : (((k, i) : ℕ × ℕ).1 != vid) = true := by simp [hk]
      by_cases hv : v = k
      · subst hv
        simp [List.filter_cons, h1, List.lookup]
      · have h2 : (v == k) = false := by simp [hv]
        simp [List.filter_cons, h1, List.lookup, h2, ih]

/-- Looking up the erased key yields nothing. -/
theorem lookup_filter_self (l : List (ℕ × ℕ)) (vid : ℕ) :
    (l.filter (fun p => p.1 != vid)).lookup vid = none := by
  induction l with
  | nil => rfl
  | cons a l ih =>
    rcases a with ⟨k, i⟩
    by_cases hk : k = vid
    · have h1 : (((k, i) : ℕ × ℕ).1 != vid) = false := by simp [hk]
      simp [List.filter_cons, h1, ih]
    · have h1 : (((k, i) : ℕ × ℕ).1 != vid) = true := by simp [hk]
      have h2 : (vid == k) = false := by simp [Ne.symm hk]
      simp [List.filter_cons, h1, List.lookup, h2, ih]

/-- Appending a single binding extends the set of defined keys by that key. -/
theorem lookup_append_single (l : List (ℕ × ℕ)) (w i v : ℕ) :
    ((l ++ [(w, i)]).lookup v).isSome ↔ (l.lookup v).isSome ∨ v = w := by
  induction l with
  | nil =>
    by_cases hv : v = w
    · simp [List.lookup, hv]
    · have h2 : (v == w) = false := by simp [hv]
      simp [List.lookup, h2, hv]
  | cons a l ih =>
    rcases a with ⟨k, j⟩
    by_cases hv : v = k
    · simp [List.lookup, hv]
    · have h2 : (v == k) = false := by simp [hv]
      simp [List.lookup, h2, ih]

/-- Replay soundness kernel: if the presence automaton never sees a double
arrival, the replay never hits the assertion. -/
theorem replay_no_double_ok (gc_id : ℕ) (parent : ℕ → Option ℕ) (ct iv : ℤ) :
    ∀ (evs : List (ℕ × VehicleEventE)) (st : ReplaySt) (pres : List ℕ),
      gc_pres_inv st pres →
      no_double_arrival gc_id parent pres evs = true →
      ∃ st', replay_events gc_id parent ct iv evs st = Except.ok st' := by
  intro evs
  induction evs with
  | nil => exact fun st pres _ _ => ⟨st, rfl⟩
  | cons te rest ih =>
    rcases te with ⟨tsIdx, e⟩
    rcases e with ⟨est, evid, eact⟩
    intro st pres hinv hnd
    rw [no_double_arrival] at hnd
    cases eact with
    | departure =>
      have hnd2 : (true &&
          no_double_arrival gc_id parent (pres.filter (fun v => v != evid)) rest) = true := hnd
      rw [Bool.true_and] at hnd2
      have hinv2 : gc_pres_inv
          { st with
            gc_vehicles := st.gc_vehicles.filter (fun p => p.1 != evid) }
          (pres.filter (fun v => v != evid)) := by
        intro v
        by_cases hv : v = evid
        · subst hv
          simp [lookup_filter_self]
        · have := hinv v
          simp only [List.mem_filter]
          rw [lookup_filter_ne _ _ _ hv]
          simpa [hv] using this
      cases hlk : st.gc_vehicles.lookup evid with
      | some v_idx =>
        obtain ⟨st', hst'⟩ := ih
          { st with
            gc_vehicles := st.gc_vehicles.filter (fun p => p.1 != evid),
            vehicle_arrivals :=
              st.vehicle_arrivals.set v_idx
                { st.vehicle_arrivals.getD v_idx default with
                    depart_idx := some (tsIdx : ℤ) },
            sim_vehicles := upd_vehicle st.sim_vehicles evid
              (fun v => { v with soc := max v.soc v.desired_soc }) }
          (pres.filter (fun v => v != evid)) hinv2 hnd2
        refine ⟨st', ?_⟩
        rw [replay_events]
        have hok : process_vehicle_event gc_id parent ct iv tsIdx st
            ⟨est, evid, VAction.departure⟩ =
            Except.ok
              { st with
                gc_vehicles := st.gc_vehicles.filter (fun p => p.1 != evid),
                vehicle_arrivals :=
                  st.vehicle_arrivals.set v_idx
                    { st.vehicle_arrivals.getD v_idx default with
                        depart_idx := some (tsIdx : ℤ) },
                sim_vehicles := upd_vehicle st.sim_vehicles evid
                  (fun v => { v with soc := max v.soc v.desired_soc }) } := by
          simp [process_vehicle_event, hlk]
        rw [hok]
        exact hst'
      | none =>
        have hinv3 : gc_pres_inv st (pres.filter (fun v => v != evid)) := by
          intro v
          by_cases hv : v = evid
          · subst hv
            simp [hlk, List.mem_filter]
          · have := hinv v
            simp only [List.mem_filter]
            simpa [hv] using this
        obtain ⟨st', hst'⟩ := ih
          { st with
            sim_vehicles := upd_vehicle st.sim_vehicles evid
              (fun v => { v with soc := max v.soc v.desired_soc }) }
          (pres.filter (fun v => v != evid)) hinv3 hnd2
        refine ⟨st', ?_⟩
        rw [replay_events]
        have hok : process_vehicle_event gc_id parent ct iv tsIdx st
            ⟨est, evid, VAction.departure⟩ =
            Except.ok
              { st with
                sim_vehicles := upd_vehicle st.sim_vehicles evid
                  (fun v => { v with soc := max v.soc v.desired_soc }) } := by
          simp [process_vehicle_event, hlk]
        rw [hok]
        exact hst'
    | arrival upd =>
      rcases upd with ⟨uccs, udes, usd, uest⟩
      cases uccs with
      | none =>
        have hnd2 : (true && no_double_arrival gc_id parent pres rest) = true := hnd
        rw [Bool.true_and] at hnd2
        obtain ⟨st', hst'⟩ := ih st pres hinv hnd2
        exact ⟨st', hst'⟩
      | some cs_id =>
        have hnd2 : ((if parent cs_id = some gc_id then decide (evid ∉ pres) else true) &&
            no_double_arrival gc_id parent
              (if parent cs_id = some gc_id then pres ++ [evid] else pres) rest) = true := hnd
        by_cases hpar : parent cs_id = some gc_id
        · rw [if_pos hpar, if_pos hpar] at hnd2
          rcases Bool.and_eq_true_iff.mp hnd2 with ⟨hhead, htail⟩
          have hmem : evid ∉ pres := of_decide_eq_true hhead
          have hlk : st.gc_vehicles.lookup evid = none := by
            cases h : st.gc_vehicles.lookup evid with
            | none => rfl
            | some x => exact absurd ((hinv evid).mp (by simp [h])) hmem
          have hinv2 : gc_pres_inv
              { st with
                sim_vehicles := upd_vehicle st.sim_vehicles evid
                  (fun v =>
                    { v with
                      desired_soc := udes,
                      soc := v.soc + usd,
                      estimated_time_of_departure := uest,
                      connected_charging_station := some cs_id }),
                gc_vehicles := st.gc_vehicles ++ [(evid, st.vehicle_arrivals.length)],
                vehicle_arrivals := st.vehicle_arrivals ++
                  [⟨evid, tsIdx, depart_idx_of ct iv uest⟩] }
              (pres ++ [evid]) := by
            intro v
            rw [lookup_append_single]
            simp only [List.mem_append, List.mem_singleton]
            rw [hinv v]
          obtain ⟨st', hst'⟩ := ih _ (pres ++ [evid]) hinv2 htail
          refine ⟨st', ?_⟩
          rw [replay_events]
          have hok : process_vehicle_event gc_id parent ct iv tsIdx st
              ⟨est, evid, VAction.arrival ⟨some cs_id, udes, usd, uest⟩⟩ =
              Except.ok
                { st with
                  sim_vehicles := upd_vehicle st.sim_vehicles evid
                    (fun v =>
                      { v with
                        desired_soc := udes,
                        soc := v.soc + usd,
                        estimated_time_of_departure := uest,
                        connected_charging_station := some cs_id }),
                  gc_vehicles := st.gc_vehicles ++ [(evid, st.vehicle_arrivals.length)],
                  vehicle_arrivals := st.vehicle_arrivals ++
                    [⟨evid, tsIdx, depart_idx_of ct iv uest⟩] } := by
            simp [process_vehicle_event, hpar, hlk]
          rw [hok]
          exact hst'
        · rw [if_neg hpar, if_neg hpar, Bool.true_and] at hnd2
          have hinv2 : gc_pres_inv
              { st with
                sim_vehicles := upd_vehicle st.sim_vehicles evid
                  (fun v =>
                    { v with
                      desired_soc := udes,
                      soc := v.soc + usd,
                      estimated_time_of_departure := uest,
                      connected_charging_station := some cs_id }) } pres := by
            intro v
            exact hinv v
          obtain ⟨st', hst'⟩ := ih _ pres hinv2 hnd2
          refine ⟨st', ?_⟩
          rw [replay_events]
          have hok : process_vehicle_event gc_id parent ct iv tsIdx st
              ⟨est, evid, VAction.arrival ⟨some cs_id, udes, usd, uest⟩⟩ =
              Except.ok
                { st with
                  sim_vehicles := upd_vehicle st.sim_vehicles evid
                    (fun v =>
                      { v with
                        desired_soc := udes,
                        soc := v.soc + usd,
                        estimated_time_of_departure := uest,
                        connected_charging_station := some cs_id }) } := by
            simp [process_vehicle_event, hpar]
          rw [hok]
          exact hst'

/-- Claim C5: replaying an arrival event that connects a vehicle to a station
of this connector while the vehicle already has an open arrival record fails
with an assertion error carrying the vehicle id, the event time, the previous
record index and the timestep index (no record is overwritten, since the
error aborts the replay); and for every event stream with no double arrival
the assertion never fires. -/
theorem c5_double_arrival_is_fatal :
    (∀ (gc_id : ℕ) (parent : ℕ → Option ℕ) (ct iv : ℤ) (tsIdx : ℕ) (st : ReplaySt)
        (e : VehicleEventE) (upd : ArrUpdate) (cs_id prev_idx : ℕ),
        e.action = VAction.arrival upd →
        upd.connected_charging_station = some cs_id →
        parent cs_id = some gc_id →
        st.gc_vehicles.lookup e.vehicle_id = some prev_idx →
        process_vehicle_event gc_id parent ct iv tsIdx st e =
          Except.error ⟨e.vehicle_id, e.start_time, prev_idx, tsIdx⟩) ∧
    (∀ (gc_id : ℕ) (parent : ℕ → Option ℕ) (ct iv : ℤ)
        (evs : List (ℕ × VehicleEventE)) (st : ReplaySt) (pres : List ℕ),
        gc_pres_inv st pres →
        no_double_arrival gc_id parent pres evs = true →
        ∃ st', replay_events gc_id parent ct iv evs st = Except.ok st') := by
  constructor
  · intro gc_id parent ct iv tsIdx st e upd cs_id prev_idx hact hcs hpar hlk
    simp [process_vehicle_event, hact, hcs, hpar, hlk]
  · exact fun gc_id parent ct iv evs st pres hinv hnd =>
      replay_no_double_ok gc_id parent ct iv evs st pres hinv hnd

/-- Witness for claim C5: a second arrival of vehicle 7 (already recorded at
index 0) at timestep 2 fails with the full context, and a clean one-arrival
stream replays without assertion. -/
theorem c5_double_arrival_is_fatal_witness :
    process_vehicle_event 0 (fun _ => some 0) 0 1 2
        ⟨[], [(7, 0)], []⟩ ⟨5, 7, VAction.arrival ⟨some 3, 1, 0, none⟩⟩ =
      Except.error ⟨7, 5, 0, 2⟩ ∧
    ∃ st', replay_events 0 (fun _ => some 0) 0 1
        [(0, ⟨0, 7, VAction.arrival ⟨some 3, 1, 0, none⟩⟩)] ⟨[], [], []⟩ =
      Except.ok st' := by
  constructor
  · exact c5_double_arrival_is_fatal.1 0 (fun _ => some 0) 0 1 2
      ⟨[], [(7, 0)], []⟩ ⟨5, 7, VAction.arrival ⟨some 3, 1, 0, none⟩⟩
      ⟨some 3, 1, 0, none⟩ 3 0 rfl rfl rfl rfl
  · exact c5_double_arrival_is_fatal.2 0 (fun _ => some 0) 0 1
      [(0, ⟨0, 7, VAction.arrival ⟨some 3, 1, 0, none⟩⟩)] ⟨[], [], []⟩ []
      (fun v => by simp [List.lookup]) (by decide)

/-- Claim C9: the departure-event SOC adjustment mutates only the deep-copied
snapshot vehicles: processing a departure always succeeds and rewrites the
snapshot vehicle's SOC to max(SOC, desired_soc), while the authoritative
vehicle map handed to the forecast is returned unchanged by the replay
wrapper (the deepcopy of line 58 is modelled by passing the map by value). -/
theorem c9_departure_topping_forecast_local :
    (∀ (gc_id : ℕ) (parent : ℕ → Option ℕ) (ct iv : ℤ)
        (world_vehicles : List (ℕ × SimVeh)) (gcv0 : List (ℕ × ℕ)) (va0 : List VRec)
        (evs : List (ℕ × VehicleEventE)),
        (forecast_replay gc_id parent ct iv world_vehicles gcv0 va0 evs).1 =
          world_vehicles) ∧
    (∀ (gc_id : ℕ) (parent : ℕ → Option ℕ) (ct iv : ℤ) (tsIdx : ℕ)
        (st : ReplaySt) (e : VehicleEventE),
        e.action = VAction.departure →
        ∃ st', process_vehicle_event gc_id parent ct iv tsIdx st e = Except.ok st' ∧
          st'.sim_vehicles = upd_vehicle st.sim_vehicles e.vehicle_id
            (fun v => { v with soc := max v.soc v.desired_soc })) := by
  constructor
  · intro gc_id parent ct iv world_vehicles gcv0 va0 evs
    rfl
  · intro gc_id parent ct iv tsIdx st e hact
    cases hlk : st.gc_vehicles.lookup e.vehicle_id with
    | some v_idx =>
      refine ⟨{ st with
          gc_vehicles := st.gc_vehicles.filter (fun p => p.1 != e.vehicle_id),
          vehicle_arrivals :=
            st.vehicle_arrivals.set v_idx
              { st.vehicle_arrivals.getD v_idx default with
                  depart_idx := some (tsIdx : ℤ) },
          sim_vehicles := upd_vehicle st.sim_vehicles e.vehicle_id
            (fun v => { v with soc := max v.soc v.desired_soc }) }, ?_, rfl⟩
      simp [process_vehicle_event, hact, hlk]
    | none =>
      refine ⟨{ st with
          sim_vehicles := upd_vehicle st.sim_vehicles e.vehicle_id
            (fun v => { v with soc := max v.soc v.desired_soc }) }, ?_, rfl⟩
      simp [process_vehicle_event, hact, hlk]

/-- Witness for claim C9: a concrete departure event for vehicle 1 succeeds
and tops the snapshot SOC up from 1/2 to 3/4 while the authoritative map is
returned unchanged. -/
theorem c9_departure_topping_witness :
    (forecast_replay 0 (fun _ => none) 0 1 [(1, ⟨1/2, 3/4, none, none⟩)] [] []
        [(0, ⟨0, 1, VAction.departure⟩)]).1 = [(1, ⟨1/2, 3/4, none, none⟩)] ∧
    ∃ st', process_vehicle_event 0 (fun _ => none) 0 1 0
        ⟨[(1, ⟨1/2, 3/4, none, none⟩)], [], []⟩ ⟨0, 1, VAction.departure⟩ =
        Except.ok st' ∧
      st'.sim_vehicles = upd_vehicle [(1, ⟨1/2, 3/4, none, none⟩)] 1
        (fun v => { v with soc := max v.soc v.desired_soc }) := by
  exact ⟨c9_departure_topping_forecast_local.1 0 (fun _ => none) 0 1
      [(1, ⟨1/2, 3/4, none, none⟩)] [] [] [(0, ⟨0, 1, VAction.departure⟩)],
    c9_departure_topping_forecast_local.2 0 (fun _ => none) 0 1 0
      ⟨[(1, ⟨1/2, 3/4, none, none⟩)], [], []⟩ ⟨0, 1, VAction.departure⟩ rfl⟩

/-- Witness for claim C7 at a concrete input: two events with start times 10
and 3 (horizon 4, simulation start 0) are adjusted and sorted. -/
theorem c7_pf_init_witness :
    (pf_init 0 4 [⟨10, 9, 0⟩, ⟨3, 3, 1⟩]).Sorted pf_le ∧
      (pf_init 0 4 [⟨10, 9, 0⟩, ⟨3, 3, 1⟩]).Perm
        ([⟨10, 9, 0⟩, ⟨3, 3, 1⟩].map (pf_adjust 0 4)) ∧
      (pf_adjust 0 4 ⟨10, 9, 0⟩).signal_time = 6 ∧
      (pf_adjust 0 4 ⟨3, 3, 1⟩).signal_time = 0 := by
  obtain ⟨hs, hp, hall⟩ := c7_pf_init_clamps_and_sorts 0 4 [⟨10, 9, 0⟩, ⟨3, 3, 1⟩]
  refine ⟨hs, hp, ?_, ?_⟩
  · rw [(hall ⟨10, 9, 0⟩).1]; rfl
  · rw [(hall ⟨3, 3, 1⟩).1]; rfl


/-! ## Theorems for claim C10 (extrapolation divisor) -/

/-- If the sweep ends with the energy need still unmet by more than EPS (the
condition under which fast_charge takes the extrapolation branch), then the
sweep consumed every level position. -/
theorem sweep_deficit_consumes_all (EPS ts_per_hour eff energy_needed : ℚ)
    (hEPS : 0 < EPS) (window : List TSInfo) (power_levels : List (ℚ × ℕ)) :
    ∀ (idx : ℕ) (prev_power prev_energy power : ℚ),
      EPS < energy_needed -
        (sweep EPS ts_per_hour eff energy_needed hEPS window power_levels
          idx prev_power prev_energy power).prev_energy →
      power_levels.length ≤
        (sweep EPS ts_per_hour eff energy_needed hEPS window power_levels
          idx prev_power prev_energy power).idx := by
  intro idx prev_power prev_energy power
  induction idx, prev_power, prev_energy, power using
      sweep.induct EPS ts_per_hour eff energy_needed hEPS window power_levels with
  | case1 idx pp pe pw h hc ih =>
    rw [sweep, dif_pos h, dif_pos hc]
    exact ih
  | case2 idx pp pe pw h hc cand energy hbreak =>
    rw [sweep, dif_pos h, dif_neg hc, if_pos hbreak]
    intro habs
    dsimp only at habs
    rw [sub_self] at habs
    exact absurd habs (by linarith)
  | case3 idx pp pe pw h hc cand energy hbreak ih =>
    rw [sweep, dif_pos h, dif_neg hc, if_neg hbreak]
    exact ih
  | case4 idx pp pe pw h =>
    rw [sweep, dif_neg h]
    intro hd
    dsimp only at hd ⊢
    by_contra hlt
    exact h ⟨by omega, hd⟩

/-- Claim C10: in fast_charge, for a vehicle with a non-empty standing window
and positive energy need, whenever the extrapolation branch (which divides by
idx) is reached, idx is at least 1 - including the window-length-1 case - so
the division is always defined. -/
theorem c10_extrapolation_divisor_at_least_one (EPS ts_per_hour eff energy_needed : ℚ)
    (hEPS : 0 < EPS) (arrival_idx depart_idx : ℕ) (timesteps : List TSInfo)
    (harr : arrival_idx < depart_idx) (hneed : 0 < energy_needed)
    (hext : EPS < energy_needed -
      (fc_sweep EPS ts_per_hour eff energy_needed hEPS
        arrival_idx depart_idx timesteps).prev_energy) :
    1 ≤ (fc_sweep EPS ts_per_hour eff energy_needed hEPS
      arrival_idx depart_idx timesteps).idx := by
  have hlen : 1 ≤ (fc_levels arrival_idx depart_idx timesteps).length := by
    simp only [fc_levels, List.length_insertionSort, List.length_map, List.length_range']
    omega
  exact le_trans hlen
    (sweep_deficit_consumes_all EPS ts_per_hour eff energy_needed hEPS
      (fc_window arrival_idx depart_idx timesteps)
      (fc_levels arrival_idx depart_idx timesteps) 0
      ((fc_levels arrival_idx depart_idx timesteps).getD 0 (0, 0)).1 0 0 hext)

/-- Witness for claim C10 on the window-length-1 case: one timestep with
cur_power 0 and max_power 100, energy need 50; the sweep ends in deficit and
idx is 1. -/
theorem c10_extrapolation_divisor_witness :
    (0 : ℚ) < 1/1000 ∧ 0 < 1 ∧ (0 : ℚ) < 50 ∧
      (1/1000 : ℚ) < 50 -
        (fc_sweep (1/1000) 1 1 50 (by norm_num) 0 1 [⟨0, 100⟩]).prev_energy ∧
      1 ≤ (fc_sweep (1/1000) 1 1 50 (by norm_num) 0 1 [⟨0, 100⟩]).idx := by
  have hc : fc_sweep (1/1000 : ℚ) 1 1 50 (by norm_num) 0 1 [⟨0, 100⟩] =
      ⟨1, 0, 0, 0, false⟩ := by
    rw [fc_sweep]
    have hl : fc_levels 0 1 [(⟨0, 100⟩ : TSInfo)] = [((0 : ℚ), 0)] := by
      simp [fc_levels, List.range', List.insertionSort]
    rw [hl]
    rw [sweep]
    norm_num
    rw [sweep]
    norm_num
  refine ⟨by norm_num, by norm_num, by norm_num, ?_, ?_⟩
  · rw [hc]
    norm_num
  · exact c10_extrapolation_divisor_at_least_one (1/1000) 1 1 50 (by norm_num) 0 1
      [⟨0, 100⟩] (by norm_num) (by norm_num) (by rw [hc]; norm_num)


/-! ## List helper lemmas for the fill-algorithm proofs -/

/-- getD after set at the written index. -/
theorem list_getD_set_self {α : Type} [Inhabited α] (l : List α) (i : ℕ) (v : α)
    (h : i < l.length) : (l.set i v).getD i default = v := by
  induction l generalizing i with
  | nil => simp at h
  | cons a t ih =>
    cases i with
    | zero => rfl
    | succ j => simpa using ih j (by simpa using h)

/-- getD after set at another index. -/
theorem list_getD_set_ne {α : Type} [Inhabited α] (l : List α) (i j : ℕ) (v : α)
    (h : i ≠ j) : (l.set i v).getD j default = l.getD j default := by
  induction l generalizing i j with
  | nil => simp
  | cons a t ih =>
    cases i with
    | zero =>
      cases j with
      | zero => exact absurd rfl h
      | succ k => rfl
    | succ i2 =>
      cases j with
      | zero => rfl
      | succ k => simpa using ih i2 k (by omega)

/-- Sum of a mapped list after updating one entry. -/
theorem list_sum_map_set {α : Type} [Inhabited α] (f : α → ℚ) (l : List α) (i : ℕ) (v : α)
    (h : i < l.length) :
    ((l.set i v).map f).sum = (l.map f).sum - f (l.getD i default) + f v := by
  induction l generalizing i with
  | nil => simp at h
  | cons a t ih =>
    cases i with
    | zero =>
      simp only [List.set, List.map_cons, List.sum_cons, List.getD_cons_zero]
      ring
    | succ j =>
      have hj : j < t.length := by simpa using h
      simp only [List.set, List.map_cons, List.sum_cons, List.getD_cons_succ]
      rw [ih j hj]
      ring

/-- A range of getD values is the corresponding slice of the list. -/
theorem list_range_map_getD {α : Type} [Inhabited α] (l : List α) :
    ∀ (n a : ℕ), a + n ≤ l.length →
      (List.range' a n).map (fun i => l.getD i default) = (l.drop a).take n := by
  intro n
  induction n with
  | zero => simp
  | succ m ih =>
    intro a h
    have ha : a < l.length := by omega
    rw [List.range'_succ]
    rw [List.drop_eq_getElem_cons ha]
    simp only [List.map_cons, List.take_succ_cons]
    rw [List.getD_eq_getElem l default ha, ih (a + 1) (by omega)]

/-- clamp_power never exceeds the positive part of its argument. -/
theorem clamp_power_le_max0 (p : ℚ) (v : Vehicle) (cs : ChargingStation) :
    clamp_power p v cs ≤ max p 0 := by
  simp only [clamp_power]
  split
  · exact le_max_right _ _
  · exact le_trans (min_le_left _ _) (le_max_left _ _)

/-- Raising a by the clipped gap to b lands at the maximum of the two. -/
theorem add_max_sub_self (a b : ℚ) : a + max (b - a) 0 = max b a := by
  rcases le_total a b with h | h
  · rw [max_eq_left (sub_nonneg.2 h), max_eq_left h]
    ring
  · rw [max_eq_right (sub_nonpos.2 h), max_eq_right h]
    ring

/-- Membership in the sorted power_levels list of fast_charge. -/
theorem fc_levels_mem_iff (a d : ℕ) (ts : List TSInfo) (pl : ℚ × ℕ) :
    pl ∈ fc_levels a d ts ↔
      ∃ i, (a ≤ i ∧ i < a + (d - a)) ∧ pl = ((ts.getD i default).cur_power, i) := by
  simp only [fc_levels, List.mem_insertionSort, List.mem_map, List.mem_range'_1]
  constructor
  · rintro ⟨i, hi, rfl⟩
    exact ⟨i, hi, rfl⟩
  · rintro ⟨i, hi, rfl⟩
    exact ⟨i, hi, rfl⟩

/-- The timestep indices of power_levels are pairwise distinct. -/
theorem fc_levels_snd_nodup (a d : ℕ) (ts : List TSInfo) :
    ((fc_levels a d ts).map (fun pl => pl.2)).Nodup := by
  have hp : (fc_levels a d ts).Perm
      ((List.range' a (d - a)).map (fun i => ((ts.getD i default).cur_power, i))) :=
    List.perm_insertionSort _ _
  have hp2 := hp.map (fun pl : ℚ × ℕ => pl.2)
  rw [List.Perm.nodup_iff hp2]
  simp only [List.map_map]
  have : ((fun pl : ℚ × ℕ => pl.2) ∘ fun i => ((ts.getD i default).cur_power, i)) = id := by
    funext i
    rfl
  rw [this, List.map_id]
  exact List.nodup_range' _ _

/-- The application loop of fast_charge never pushes a timestep above the
maximum of its previous cur_power and its max_power ceiling, provided every
processed pair carries its timestep's recorded cur_power, timestep indices
are distinct, and the battery model delivers a nonnegative average power of
at most the requested power. -/
theorem apply_charge_no_overshoot {B : Type} (vehicle : Vehicle) (cs : ChargingStation)
    (bat_load : B → ℚ → ℚ × B)
    (hdel : ∀ (b2 : B) (p : ℚ), 0 ≤ (bat_load b2 p).1 ∧ (bat_load b2 p).1 ≤ max p 0)
    (opt_power : ℚ) :
    ∀ (lst : List (ℚ × ℕ)) (timesteps : List TSInfo) (b : B) (delta command : ℚ),
      (∀ pl ∈ lst, pl.2 < timesteps.length ∧
        pl.1 = (timesteps.getD pl.2 default).cur_power) →
      ((lst.map (fun pl => pl.2)).Nodup) →
      (apply_charge vehicle cs bat_load opt_power lst timesteps b delta command).2.1.length
          = timesteps.length ∧
        ∀ i, i < timesteps.length →
          ((apply_charge vehicle cs bat_load opt_power lst timesteps b delta
              command).2.1.getD i default).max_power
            = (timesteps.getD i default).max_power ∧
          ((apply_charge vehicle cs bat_load opt_power lst timesteps b delta
              command).2.1.getD i default).cur_power
            ≤ max (timesteps.getD i default).cur_power (timesteps.getD i default).max_power := by
  intro lst
  induction lst with
  | nil =>
    intro timesteps b delta command hmem hnd
    exact ⟨rfl, fun i hi => ⟨rfl, le_max_left _ _⟩⟩
  | cons pl rest ih =>
    intro timesteps b delta command hmem hnd
    obtain ⟨hplen, hpcur⟩ := hmem pl (List.mem_cons_self pl rest)
    have hnd2 : ((rest.map (fun pl => pl.2)).Nodup) := (List.nodup_cons.mp hnd).2
    have hplnotin : pl.2 ∉ rest.map (fun pl => pl.2) := (List.nodup_cons.mp hnd).1
    set info := timesteps.getD pl.2 default with hinfo
    set power0 := min (opt_power + delta) info.max_power - pl.1 with hpower0
    set power := clamp_power power0 vehicle cs with hpower
    set avg_power := (bat_load b power).1 with havg
    set ts1 := timesteps.set pl.2 { info with cur_power := info.cur_power + avg_power }
      with hts1
    have hlen1 : ts1.length = timesteps.length := by
      rw [hts1, List.length_set]
    have hmem2 : ∀ q ∈ rest, q.2 < ts1.length ∧ q.1 = (ts1.getD q.2 default).cur_power := by
      intro q hq
      obtain ⟨hq1, hq2⟩ := hmem q (List.mem_cons_of_mem pl hq)
      have hne : pl.2 ≠ q.2 := by
        intro hcontra
        exact hplnotin (hcontra ▸ List.mem_map_of_mem (fun pl => pl.2) hq)
      refine ⟨by rwa [hlen1], ?_⟩
      rw [hts1, list_getD_set_ne _ _ _ _ hne]
      exact hq2
    have happ : apply_charge vehicle cs bat_load opt_power (pl :: rest) timesteps b delta
        command =
        apply_charge vehicle cs bat_load opt_power rest ts1 (bat_load b power).2
          (delta + (power - avg_power)) (if pl.2 = 0 then power else command) := by
      rfl
    rw [happ]
    obtain ⟨ihl, ihb⟩ := ih ts1 (bat_load b power).2 (delta + (power - avg_power))
      (if pl.2 = 0 then power else command) hmem2 hnd2
    have hcurbound : info.cur_power + avg_power ≤ max info.cur_power info.max_power := by
      have h1 : avg_power ≤ max power 0 := (hdel b power).2
      have h2 : power ≤ max power0 0 := clamp_power_le_max0 power0 vehicle cs
      have h3 : max power 0 ≤ max power0 0 :=
        max_le (le_trans h2 le_rfl) (le_max_right _ _)
      have h4 : power0 ≤ info.max_power - info.cur_power := by
        rw [hpower0, hpcur]
        have := min_le_right (opt_power + delta) info.max_power
        linarith
      have h5 : max power0 0 ≤ max (info.max_power - info.cur_power) 0 :=
        max_le_max h4 le_rfl
      have h6 : avg_power ≤ max (info.max_power - info.cur_power) 0 :=
        le_trans h1 (le_trans h3 h5)
      have h7 := add_max_sub_self info.cur_power info.max_power
      rw [max_comm info.cur_power info.max_power]
      linarith
    constructor
    · rw [ihl, hlen1]
    · intro i hi
      have hi1 : i < ts1.length := by rwa [hlen1]
      obtain ⟨ihmax, ihcur⟩ := ihb i hi1
      by_cases hip : i = pl.2
      · subst hip
        have hset : ts1.getD pl.2 default =
            { info with cur_power := info.cur_power + avg_power } := by
          rw [hts1]
          exact list_getD_set_self _ _ _ hplen
        constructor
        · rw [ihmax, hset]
        · refine le_trans ihcur ?_
          rw [hset]
          have : max (info.cur_power + avg_power) info.max_power
              ≤ max info.cur_power info.max_power := by
            apply max_le
            · exact le_trans hcurbound le_rfl
            · exact le_max_right _ _
          simpa [hinfo] using this
      · have hset : ts1.getD i default = timesteps.getD i default := by
          rw [hts1]
          exact list_getD_set_ne _ _ _ _ (fun hcontra => hip hcontra.symm)
        constructor
        · rw [ihmax, hset]
        · rw [hset] at ihcur
          exact ihcur

/-- Claim C1 (no-overshoot): for every timestep of the timesteps list whose
cur_power is within its max_power ceiling, running fast_charge never raises
that timestep's cur_power above the ceiling - also when the fill level came
from the extrapolation branch - because the application loop caps the
requested power at the ceiling before clamp_power, and the battery delivers
at most the request. -/
theorem c1_no_overshoot {B : Type} (EPS ts_per_hour : ℚ) (hEPS : 0 < EPS)
    (vehicle : Vehicle) (cs : ChargingStation) (eff : ℚ)
    (bat_load : B → ℚ → ℚ × B) (b : B)
    (arrival_idx depart_idx : ℕ) (energy_needed : ℚ) (timesteps : List TSInfo)
    (hdel : ∀ (b2 : B) (p : ℚ), 0 ≤ (bat_load b2 p).1 ∧ (bat_load b2 p).1 ≤ max p 0)
    (hdep : depart_idx ≤ timesteps.length)
    (i : ℕ) (hi : i < timesteps.length)
    (hceil : (timesteps.getD i default).cur_power ≤ (timesteps.getD i default).max_power) :
    (((fast_charge EPS ts_per_hour hEPS vehicle cs eff bat_load b arrival_idx depart_idx
        energy_needed timesteps).2).getD i default).cur_power
      ≤ (timesteps.getD i default).max_power := by
  rw [fast_charge]
  split
  · exact hceil
  · dsimp only
    set s := fc_sweep EPS ts_per_hour eff energy_needed hEPS arrival_idx depart_idx
      timesteps with hs
    set opt_power := fc_opt_power EPS ts_per_hour eff energy_needed hEPS arrival_idx
      depart_idx timesteps with hopt
    set pfx := List.insertionSort idx_le
      ((fc_levels arrival_idx depart_idx timesteps).take s.idx) with hpfx
    have hmem : ∀ pl ∈ pfx, pl.2 < timesteps.length ∧
        pl.1 = (timesteps.getD pl.2 default).cur_power := by
      intro pl hpl
      have h1 : pl ∈ (fc_levels arrival_idx depart_idx timesteps).take s.idx := by
        rw [hpfx] at hpl
        exact (List.mem_insertionSort idx_le).mp hpl
      have h2 : pl ∈ fc_levels arrival_idx depart_idx timesteps :=
        List.mem_of_mem_take h1
      obtain ⟨j, ⟨hj1, hj2⟩, rfl⟩ := (fc_levels_mem_iff _ _ _ _).mp h2
      exact ⟨by omega, rfl⟩
    have hnd : (pfx.map (fun pl => pl.2)).Nodup := by
      have hperm : pfx.Perm ((fc_levels arrival_idx depart_idx timesteps).take s.idx) :=
        List.perm_insertionSort _ _
      rw [List.Perm.nodup_iff (hperm.map _)]
      have hsub := (List.take_sublist s.idx
        (fc_levels arrival_idx depart_idx timesteps)).map (fun pl => pl.2)
      exact (fc_levels_snd_nodup _ _ _).sublist hsub
    obtain ⟨hlen, hall⟩ := apply_charge_no_overshoot vehicle cs bat_load hdel opt_power
      pfx timesteps b 0 0 hmem hnd
    obtain ⟨hmax, hcur⟩ := hall i hi
    rw [← hmax]
    refine le_trans hcur ?_
    rw [max_eq_right hceil, hmax]


/-- Witness for claim C1 at a concrete input: one timestep with cur_power 0
and max_power 10, energy need 50 (forcing the extrapolation branch), battery
delivering exactly the nonnegative part of the request; the timestep stays
within its ceiling. -/
theorem c1_no_overshoot_witness :
    (([⟨0, 10⟩] : List TSInfo).getD 0 default).cur_power
        ≤ (([⟨0, 10⟩] : List TSInfo).getD 0 default).max_power ∧
    (((fast_charge (1/1000) 1 (by norm_num) ⟨⟨0, 100⟩⟩ ⟨0, 100⟩ 1
        (fun (b : Unit) p => (max p 0, b)) () 0 1 50 [⟨0, 10⟩]).2).getD 0
          default).cur_power
      ≤ (([⟨0, 10⟩] : List TSInfo).getD 0 default).max_power := by
  constructor
  · norm_num [List.getD_cons_zero]
  · exact c1_no_overshoot (1/1000) 1 (by norm_num) ⟨⟨0, 100⟩⟩ ⟨0, 100⟩ 1
      (fun (b : Unit) p => (max p 0, b)) () 0 1 50 [⟨0, 10⟩]
      (fun b2 p => ⟨le_max_right _ _, le_rfl⟩) (by norm_num) 0 (by norm_num)
      (by norm_num [List.getD_cons_zero])


/-! ## Supporting lemmas for claim C2 (energy conservation) -/

/-- Summing a constant minus the first components. -/
theorem list_sum_map_sub_const (l : List (ℚ × ℕ)) (X : ℚ) :
    (l.map (fun p => X - p.1)).sum = (l.length : ℚ) * X - (l.map (fun p => p.1)).sum := by
  induction l with
  | nil => simp
  | cons a t ih =>
    simp only [List.map_cons, List.sum_cons, List.length_cons, ih]
    push_cast
    ring

/-- getD of a position in range is a member of the list. -/
theorem getD_mem_of_lt (levels : List (ℚ × ℕ)) (idx : ℕ) (h : idx < levels.length) :
    levels.getD idx (0, 0) ∈ levels := by
  rw [List.getD_eq_getElem _ _ h]
  exact List.getElem_mem h

/-- getD of a position in range is a member of the drop at that position. -/
theorem getD_mem_drop (levels : List (ℚ × ℕ)) (idx : ℕ) (h : idx < levels.length) :
    levels.getD idx (0, 0) ∈ levels.drop idx := by
  rw [List.drop_eq_getElem_cons h, List.getD_eq_getElem _ _ h]
  exact List.mem_cons_self _ _

/-- In a list sorted by first component, every element at or after a position
dominates the element at that position. -/
theorem sorted_drop_head_le (levels : List (ℚ × ℕ))
    (hs : levels.Sorted (fun a b => a.1 ≤ b.1)) (idx : ℕ) (h : idx < levels.length) :
    ∀ l ∈ levels.drop idx, (levels.getD idx (0, 0)).1 ≤ l.1 := by
  intro l hl
  rw [List.getD_eq_getElem _ _ h]
  have hs2 : (levels.drop idx).Sorted (fun a b => a.1 ≤ b.1) :=
    hs.sublist (List.drop_sublist idx levels)
  rw [List.drop_eq_getElem_cons h] at hs2 hl
  rcases List.mem_cons.mp hl with rfl | hl2
  · exact le_rfl
  · exact (List.pairwise_cons.mp hs2).1 l hl2

/-- Extending a take by one position appends the element there. -/
theorem take_concat_getD (levels : List (ℚ × ℕ)) (idx : ℕ) (h : idx < levels.length) :
    levels.take (idx + 1) = levels.take idx ++ [levels.getD idx (0, 0)] := by
  rw [List.take_succ, List.getElem?_eq_getElem h, List.getD_eq_getElem _ _ h]
  rfl

/-- Algebraic core of the interpolation break (lines 260-265): if E and pe
are the window energies at levels cnd and pp over k positions with offset
sum S, the interpolated level delivers exactly the needed energy. -/
theorem break_interpolation_exact (c need pe E pp cnd S k : ℚ)
    (hE : E * c = k * cnd - S)
    (hpe : pe * c = k * pp - S)
    (hpelt : pe < need)
    (hEgt : need < E) :
    k * (pp + (1 - (E - need) / (E - pe)) * (cnd - pp)) - S = need * c := by
  have hden : 0 < E - pe := by linarith
  have hdenne : E - pe ≠ 0 := ne_of_gt hden
  have hfe : (1 - (E - need) / (E - pe)) * (E - pe) = need - pe := by
    field_simp
  have h1 : k * cnd = E * c + S := by linarith
  have h2 : k * pp = pe * c + S := by linarith
  have hmc : k * (cnd - pp) = (E - pe) * c := by
    calc k * (cnd - pp) = k * cnd - k * pp := by ring
      _ = (E * c + S) - (pe * c + S) := by rw [h1, h2]
      _ = (E - pe) * c := by ring
  calc k * (pp + (1 - (E - need) / (E - pe)) * (cnd - pp)) - S
      = (k * pp - S) + (1 - (E - need) / (E - pe)) * (k * (cnd - pp)) := by ring
    _ = pe * c + (1 - (E - need) / (E - pe)) * ((E - pe) * c) := by rw [← hpe, hmc]
    _ = pe * c + ((1 - (E - need) / (E - pe)) * (E - pe)) * c := by ring
    _ = pe * c + (need - pe) * c := by rw [hfe]
    _ = need * c := by ring

/-- The sorted power_levels list is sorted by cur_power. -/
theorem fc_levels_sorted_fst (a d : ℕ) (ts : List TSInfo) :
    (fc_levels a d ts).Sorted (fun x y : ℚ × ℕ => x.1 ≤ y.1) := by
  have hs := List.sorted_insertionSort lex_le
    ((List.range' a (d - a)).map (fun i => ((ts.getD i default).cur_power, i)))
  refine hs.imp ?_
  intro x y hxy
  rcases hxy with h1 | ⟨h1, h2⟩
  · exact le_of_lt h1
  · exact le_of_eq h1

/-- The energy the inner loop computes at a level L equals the prefix sum of
(L - level) over the positions whose level lies at or below L, provided the
window ceilings all reach L, the levels are a permutation of the window's
cur_power values, and L separates the take/drop split. -/
theorem window_energy_eq_prefix (window : List TSInfo) (levels : List (ℚ × ℕ))
    (ts_per_hour eff L : ℚ) (k : ℕ)
    (hperm : (window.map (fun t => t.cur_power)).Perm (levels.map (fun l => l.1)))
    (hmax : ∀ t ∈ window, L ≤ t.max_power)
    (h1 : ∀ l ∈ levels.take k, l.1 ≤ L)
    (h2 : ∀ l ∈ levels.drop k, L ≤ l.1) :
    window_energy window L ts_per_hour eff =
      ((levels.take k).map (fun l => L - l.1)).sum / (ts_per_hour / eff) := by
  unfold window_energy
  congr 1
  have hstep1 : (window.map (fun info => max (min L info.max_power - info.cur_power) 0)) =
      (window.map (fun info => max (L - info.cur_power) 0)) := by
    apply List.map_congr_left
    intro t ht
    rw [min_eq_left (hmax t ht)]
  rw [hstep1]
  have hstep2 : (window.map (fun info => max (L - info.cur_power) 0)) =
      ((window.map (fun t => t.cur_power)).map (fun x => max (L - x) 0)) := by
    rw [List.map_map]
    rfl
  rw [hstep2, List.Perm.sum_eq (hperm.map (fun x => max (L - x) 0)), List.map_map]
  conv_lhs => rw [← List.take_append_drop k levels]
  rw [List.map_append, List.sum_append]
  have hz : ((levels.drop k).map ((fun x => max (L - x) 0) ∘ fun l => l.1)).sum = 0 := by
    apply List.sum_eq_zero
    intro x hx
    obtain ⟨l, hl, rfl⟩ := List.mem_map.mp hx
    have hle := h2 l hl
    simp only [Function.comp_apply]
    rw [max_eq_right (sub_nonpos.2 hle)]
  have hp : ((levels.take k).map ((fun x => max (L - x) 0) ∘ fun l => l.1)) =
      ((levels.take k).map (fun l => L - l.1)) := by
    apply List.map_congr_left
    intro l hl
    simp only [Function.comp_apply]
    exact max_eq_left (sub_nonneg.2 (h1 l hl))
  rw [hz, hp, add_zero]

/-- Exit characterization of the sweep: starting from a state satisfying the
loop invariants, if the sweep does not end in deficit then its prev_energy
equals the prefix energy at the resolved fill level, lies within EPS of the
energy need (exactly equal after the interpolation break), the resolved level
dominates the consumed positions and is itself dominated by some level. -/
theorem sweep_exit_characterization (EPS ts_per_hour eff energy_needed : ℚ)
    (hEPS : 0 < EPS) (window : List TSInfo) (levels : List (ℚ × ℕ))
    (heff : 0 < eff) (htsph : 0 < ts_per_hour)
    (hneed : EPS < energy_needed)
    (hsorted : levels.Sorted (fun a b => a.1 ≤ b.1))
    (hsep : ∀ x ∈ levels, ∀ y ∈ levels, x.1 = y.1 ∨ EPS ≤ x.1 - y.1 ∨ EPS ≤ y.1 - x.1)
    (hperm : (window.map (fun t => t.cur_power)).Perm (levels.map (fun l => l.1)))
    (hhead : ∀ t ∈ window, ∀ l ∈ levels, l.1 ≤ t.max_power) :
    ∀ (idx : ℕ) (pp pe pw : ℚ),
      idx ≤ levels.length →
      (∀ l ∈ levels.take idx, l.1 ≤ pp) →
      (∀ l ∈ levels.drop idx, pp ≤ l.1) →
      (∃ l ∈ levels, pp = l.1) →
      pe = ((levels.take idx).map (fun l => pp - l.1)).sum / (ts_per_hour / eff) →
      pe ≤ energy_needed + EPS →
      (pe ≠ 0 → pw = pp) →
      energy_needed -
          (sweep EPS ts_per_hour eff energy_needed hEPS window levels idx pp pe pw).prev_energy
        ≤ EPS →
      ((sweep EPS ts_per_hour eff energy_needed hEPS window levels idx pp pe pw).prev_energy =
          (((levels.take (sweep EPS ts_per_hour eff energy_needed hEPS window levels
              idx pp pe pw).idx).map (fun l =>
            (sweep EPS ts_per_hour eff energy_needed hEPS window levels idx pp pe pw).power -
              l.1)).sum) / (ts_per_hour / eff) ∧
        energy_needed - EPS ≤
          (sweep EPS ts_per_hour eff energy_needed hEPS window levels idx pp pe pw).prev_energy ∧
        (sweep EPS ts_per_hour eff energy_needed hEPS window levels idx pp pe
            pw).prev_energy ≤ energy_needed + EPS ∧
        ((sweep EPS ts_per_hour eff energy_needed hEPS window levels idx pp pe pw).broke =
            true →
          (sweep EPS ts_per_hour eff energy_needed hEPS window levels idx pp pe
            pw).prev_energy = energy_needed) ∧
        (∀ l ∈ levels.take (sweep EPS ts_per_hour eff energy_needed hEPS window levels
            idx pp pe pw).idx,
          l.1 ≤ (sweep EPS ts_per_hour eff energy_needed hEPS window levels idx pp pe
            pw).power) ∧
        (∃ l ∈ levels,
          (sweep EPS ts_per_hour eff energy_needed hEPS window levels idx pp pe pw).power
            ≤ l.1) ∧
        (sweep EPS ts_per_hour eff energy_needed hEPS window levels idx pp pe pw).idx
          ≤ levels.length) := by
  have hc0 : (0 : ℚ) < ts_per_hour / eff := div_pos htsph heff
  have hcne : ts_per_hour / eff ≠ 0 := ne_of_gt hc0
  intro idx pp pe pw
  induction idx, pp, pe, pw using
      sweep.induct EPS ts_per_hour eff energy_needed hEPS window levels with
  | case1 idx pp pe pw h hc ih =>
    intro hI1 hI2 hI6 hILev hI3 hI5 hI4
    rw [sweep, dif_pos h, dif_pos hc]
    have hidxlt : idx < levels.length := h.1
    have hmemd : levels.getD idx (0, 0) ∈ levels.drop idx := getD_mem_drop levels idx hidxlt
    have hge : pp ≤ (levels.getD idx (0, 0)).1 := hI6 _ hmemd
    have heq : (levels.getD idx (0, 0)).1 = pp := by
      obtain ⟨l0, hl0, hpp⟩ := hILev
      rcases hsep (levels.getD idx (0, 0)) (getD_mem_of_lt levels idx hidxlt) l0 hl0 with
        hx | hx | hx
      · rw [hx, ← hpp]
      · rw [← hpp] at hx
        linarith
      · rw [← hpp] at hx
        linarith
    have hI1n : idx + 1 ≤ levels.length := hidxlt
    have hI2n : ∀ l ∈ levels.take (idx + 1), l.1 ≤ pp := by
      intro l hl
      rw [take_concat_getD levels idx hidxlt] at hl
      rcases List.mem_append.mp hl with hl2 | hl2
      · exact hI2 l hl2
      · rw [List.mem_singleton.mp hl2]
        exact le_of_eq heq
    have hI6n : ∀ l ∈ levels.drop (idx + 1), pp ≤ l.1 := by
      intro l hl
      apply hI6
      rw [List.drop_eq_getElem_cons hidxlt]
      exact List.mem_cons_of_mem _ hl
    have hI3n : pe =
        ((levels.take (idx + 1)).map (fun l => pp - l.1)).sum / (ts_per_hour / eff) := by
      rw [take_concat_getD levels idx hidxlt, List.map_append, List.sum_append]
      simp only [List.map_cons, List.map_nil, List.sum_cons, List.sum_nil]
      rw [heq]
      simpa using hI3
    exact ih hI1n hI2n hI6n hILev hI3n hI5 hI4
  | case2 idx pp pe pw h hc cand energy hbreak =>
    intro hI1 hI2 hI6 hILev hI3 hI5 hI4
    rw [sweep, dif_pos h, dif_neg hc, if_pos hbreak]
    intro hsat
    dsimp only
    have hidxlt : idx < levels.length := h.1
    have hpelt : pe < energy_needed := by
      have := h.2
      linarith
    have hcc : ¬ (levels.getD idx (0, 0)).1 - pp < EPS := hc
    have hppcand : EPS ≤ (levels.getD idx (0, 0)).1 - pp := not_lt.mp hcc
    have hpplt : pp < (levels.getD idx (0, 0)).1 := by linarith
    have hWEgt : EPS < window_energy window (levels.getD idx (0, 0)).1 ts_per_hour eff -
        energy_needed := hbreak
    have hEgt : energy_needed <
        window_energy window (levels.getD idx (0, 0)).1 ts_per_hour eff := by linarith
    have hEcand : window_energy window (levels.getD idx (0, 0)).1 ts_per_hour eff =
        ((levels.take idx).map (fun l => (levels.getD idx (0, 0)).1 - l.1)).sum /
          (ts_per_hour / eff) := by
      apply window_energy_eq_prefix window levels ts_per_hour eff _ idx hperm
      · intro t ht
        exact hhead t ht _ (getD_mem_of_lt levels idx hidxlt)
      · intro l hl
        exact le_trans (hI2 l hl) (le_of_lt hpplt)
      · exact sorted_drop_head_le levels hsorted idx hidxlt
    have hm : ((levels.take idx).length : ℚ) = (idx : ℚ) := by
      rw [List.length_take]
      congr 1
      omega
    have hEeq : window_energy window (levels.getD idx (0, 0)).1 ts_per_hour eff *
        (ts_per_hour / eff) =
        (idx : ℚ) * (levels.getD idx (0, 0)).1 -
          ((levels.take idx).map (fun l => l.1)).sum := by
      rw [hEcand, list_sum_map_sub_const, hm, div_mul_cancel₀ _ hcne]
    have hpeeq : pe * (ts_per_hour / eff) =
        (idx : ℚ) * pp - ((levels.take idx).map (fun l => l.1)).sum := by
      rw [hI3, list_sum_map_sub_const, hm, div_mul_cancel₀ _ hcne]
    have hkey := break_interpolation_exact (ts_per_hour / eff) energy_needed pe
      (window_energy window (levels.getD idx (0, 0)).1 ts_per_hour eff) pp
      ((levels.getD idx (0, 0)).1) (((levels.take idx).map (fun l => l.1)).sum)
      ((idx : ℚ)) hEeq hpeeq hpelt hEgt
    have hden : 0 < window_energy window (levels.getD idx (0, 0)).1 ts_per_hour eff - pe := by
      linarith
    have hfracnn : 0 ≤ 1 -
        (window_energy window (levels.getD idx (0, 0)).1 ts_per_hour eff - energy_needed) /
          (window_energy window (levels.getD idx (0, 0)).1 ts_per_hour eff - pe) := by
      have hle1 : (window_energy window (levels.getD idx (0, 0)).1 ts_per_hour eff -
            energy_needed) /
          (window_energy window (levels.getD idx (0, 0)).1 ts_per_hour eff - pe) ≤ 1 := by
        rw [div_le_one hden]
        linarith
      linarith
    have hfracle : 1 -
        (window_energy window (levels.getD idx (0, 0)).1 ts_per_hour eff - energy_needed) /
          (window_energy window (levels.getD idx (0, 0)).1 ts_per_hour eff - pe) ≤ 1 := by
      have hnn : 0 ≤ (window_energy window (levels.getD idx (0, 0)).1 ts_per_hour eff -
            energy_needed) /
          (window_energy window (levels.getD idx (0, 0)).1 ts_per_hour eff - pe) := by
        apply div_nonneg
        · linarith
        · linarith
      linarith
    have hppopt : pp ≤ pp + (1 -
        (window_energy window (levels.getD idx (0, 0)).1 ts_per_hour eff - energy_needed) /
          (window_energy window (levels.getD idx (0, 0)).1 ts_per_hour eff - pe)) *
        ((levels.getD idx (0, 0)).1 - pp) := by
      have hnn : 0 ≤ (1 -
          (window_energy window (levels.getD idx (0, 0)).1 ts_per_hour eff - energy_needed) /
            (window_energy window (levels.getD idx (0, 0)).1 ts_per_hour eff - pe)) *
          ((levels.getD idx (0, 0)).1 - pp) :=
        mul_nonneg hfracnn (by linarith)
      linarith
    have hoptcand : pp + (1 -
        (window_energy window (levels.getD idx (0, 0)).1 ts_per_hour eff - energy_needed) /
          (window_energy window (levels.getD idx (0, 0)).1 ts_per_hour eff - pe)) *
        ((levels.getD idx (0, 0)).1 - pp) ≤ (levels.getD idx (0, 0)).1 := by
      have h1 : (1 -
          (window_energy window (levels.getD idx (0, 0)).1 ts_per_hour eff - energy_needed) /
            (window_energy window (levels.getD idx (0, 0)).1 ts_per_hour eff - pe)) *
          ((levels.getD idx (0, 0)).1 - pp) ≤ 1 * ((levels.getD idx (0, 0)).1 - pp) :=
        mul_le_mul_of_nonneg_right hfracle (by linarith)
      linarith
    refine ⟨?_, by linarith, by linarith, fun _ => rfl, ?_, ?_, le_of_lt hidxlt⟩
    · rw [list_sum_map_sub_const, hm, hkey, mul_div_cancel_right₀ _ hcne]
    · intro l hl
      exact le_trans (hI2 l hl) hppopt
    · exact ⟨levels.getD idx (0, 0), getD_mem_of_lt levels idx hidxlt, hoptcand⟩
  | case3 idx pp pe pw h hc cand energy hbreak ih =>
    intro hI1 hI2 hI6 hILev hI3 hI5 hI4
    rw [sweep, dif_pos h, dif_neg hc, if_neg hbreak]
    have hidxlt : idx < levels.length := h.1
    have hppcand : EPS ≤ (levels.getD idx (0, 0)).1 - pp := not_lt.mp hc
    have hpplt : pp < (levels.getD idx (0, 0)).1 := by linarith
    have hI2n : ∀ l ∈ levels.take idx, l.1 ≤ (levels.getD idx (0, 0)).1 := by
      intro l hl
      exact le_trans (hI2 l hl) (le_of_lt hpplt)
    have hI6n : ∀ l ∈ levels.drop idx, (levels.getD idx (0, 0)).1 ≤ l.1 :=
      sorted_drop_head_le levels hsorted idx hidxlt
    have hILevn : ∃ l ∈ levels, (levels.getD idx (0, 0)).1 = l.1 :=
      ⟨levels.getD idx (0, 0), getD_mem_of_lt levels idx hidxlt, rfl⟩
    have hI3n : window_energy window (levels.getD idx (0, 0)).1 ts_per_hour eff =
        ((levels.take idx).map (fun l => (levels.getD idx (0, 0)).1 - l.1)).sum /
          (ts_per_hour / eff) := by
      apply window_energy_eq_prefix window levels ts_per_hour eff _ idx hperm
      · intro t ht
        exact hhead t ht _ (getD_mem_of_lt levels idx hidxlt)
      · exact hI2n
      · exact hI6n
    have hI5n : window_energy window (levels.getD idx (0, 0)).1 ts_per_hour eff ≤
        energy_needed + EPS := by
      have := not_lt.mp hbreak
      linarith
    exact ih hI1 hI2n hI6n hILevn hI3n hI5n (fun _ => rfl)
  | case4 idx pp pe pw h =>
    intro hI1 hI2 hI6 hILev hI3 hI5 hI4
    rw [sweep, dif_neg h]
    intro hsat
    dsimp only at hsat ⊢
    have hpe : energy_needed - EPS ≤ pe := by linarith
    have hpepos : 0 < pe := by linarith
    have hpw : pw = pp := hI4 (ne_of_gt hpepos)
    refine ⟨?_, hpe, hI5, ?_, ?_, ?_, hI1⟩
    · rw [hpw]
      exact hI3
    · intro hb
      simp at hb
    · intro l hl
      rw [hpw]
      exact hI2 l hl
    · obtain ⟨l, hl, hpp⟩ := hILev
      exact ⟨l, hl, by rw [hpw, hpp]⟩


/-- The window slice as a map of getD over the index range. -/
theorem fc_window_eq_map (a d : ℕ) (ts : List TSInfo) (h : a + (d - a) ≤ ts.length) :
    fc_window a d ts = (List.range' a (d - a)).map (fun i => ts.getD i default) := by
  unfold fc_window
  rw [list_range_map_getD ts (d - a) a h]

/-- The window's cur_power values are a permutation of the levels' first
components. -/
theorem fc_perm (a d : ℕ) (ts : List TSInfo) (h : a + (d - a) ≤ ts.length) :
    ((fc_window a d ts).map (fun t => t.cur_power)).Perm
      ((fc_levels a d ts).map (fun l => l.1)) := by
  have h1 : (fc_window a d ts).map (fun t => t.cur_power) =
      (List.range' a (d - a)).map (fun i => (ts.getD i default).cur_power) := by
    rw [fc_window_eq_map a d ts h, List.map_map]
    rfl
  have h2 : ((List.range' a (d - a)).map
      (fun i => ((ts.getD i default).cur_power, i))).map (fun l : ℚ × ℕ => l.1) =
      (List.range' a (d - a)).map (fun i => (ts.getD i default).cur_power) := by
    rw [List.map_map]
    rfl
  rw [h1]
  have h3 := (List.perm_insertionSort lex_le
    ((List.range' a (d - a)).map (fun i => ((ts.getD i default).cur_power, i)))).map
    (fun l : ℚ × ℕ => l.1)
  rw [h2] at h3
  exact h3.symm

/-- Each level's first component is the cur_power of a window timestep. -/
theorem fc_levels_fst_mem_window (a d : ℕ) (ts : List TSInfo)
    (h : a + (d - a) ≤ ts.length) :
    ∀ l ∈ fc_levels a d ts, ∃ t ∈ fc_window a d ts, l.1 = t.cur_power := by
  intro l hl
  obtain ⟨i, ⟨hi1, hi2⟩, rfl⟩ := (fc_levels_mem_iff a d ts l).mp hl
  refine ⟨ts.getD i default, ?_, rfl⟩
  rw [fc_window_eq_map a d ts h]
  exact List.mem_map_of_mem _ (List.mem_range'_1.mpr ⟨hi1, hi2⟩)

/-- A timestep of the standing window belongs to the window slice. -/
theorem fc_window_mem (a d : ℕ) (ts : List TSInfo) (h : a + (d - a) ≤ ts.length)
    (i : ℕ) (hi1 : a ≤ i) (hi2 : i < a + (d - a)) :
    ts.getD i default ∈ fc_window a d ts := by
  rw [fc_window_eq_map a d ts h]
  exact List.mem_map_of_mem _ (List.mem_range'_1.mpr ⟨hi1, hi2⟩)

/-- When no device limit binds (station and vehicle minima are nonpositive,
the requested powers stay within the station maximum) and the battery
delivers exactly the request, the application loop started with zero
shortfall raises the total projected load by exactly the sum of the gaps
between the fill level and each processed pair's recorded level. -/
theorem apply_charge_sum_exact {B : Type} (vehicle : Vehicle) (cs : ChargingStation)
    (bat_load : B → ℚ → ℚ × B)
    (hdelid : ∀ (b2 : B) (p : ℚ), (bat_load b2 p).1 = p)
    (hvmin : vehicle.vehicle_type.min_charging_power ≤ 0)
    (hcsmin : cs.min_power ≤ 0)
    (opt : ℚ) :
    ∀ (lst : List (ℚ × ℕ)) (ts : List TSInfo) (b : B) (command : ℚ),
      (∀ pl ∈ lst, pl.2 < ts.length ∧ pl.1 = (ts.getD pl.2 default).cur_power ∧
        pl.1 ≤ opt ∧ opt ≤ (ts.getD pl.2 default).max_power ∧ opt - pl.1 ≤ cs.max_power) →
      ((lst.map (fun pl => pl.2)).Nodup) →
      ((apply_charge vehicle cs bat_load opt lst ts b 0 command).2.1.map
          (fun t => t.cur_power)).sum
        = (ts.map (fun t => t.cur_power)).sum + (lst.map (fun pl => opt - pl.1)).sum := by
  intro lst
  induction lst with
  | nil =>
    intro ts b command hmem hnd
    simp [apply_charge]
  | cons pl rest ih =>
    intro ts b command hmem hnd
    obtain ⟨hplen, hpcur, hple, hoptmax, hoptcs⟩ := hmem pl (List.mem_cons_self pl rest)
    have hnd2 : ((rest.map (fun pl => pl.2)).Nodup) := (List.nodup_cons.mp hnd).2
    have hplnotin : pl.2 ∉ rest.map (fun pl => pl.2) := (List.nodup_cons.mp hnd).1
    have hpow0 : min (opt + 0) (ts.getD pl.2 default).max_power - pl.1 = opt - pl.1 := by
      rw [add_zero, min_eq_left hoptmax]
    have hcl : clamp_power (opt - pl.1) vehicle cs = opt - pl.1 := by
      simp only [clamp_power]
      rw [min_eq_left hoptcs, if_neg]
      push_neg
      constructor
      · linarith
      · linarith
    have hstep : apply_charge vehicle cs bat_load opt (pl :: rest) ts b 0 command =
        apply_charge vehicle cs bat_load opt rest
          (ts.set pl.2 { ts.getD pl.2 default with
            cur_power := (ts.getD pl.2 default).cur_power + (opt - pl.1) })
          (bat_load b (opt - pl.1)).2 0
          (if pl.2 = 0 then opt - pl.1 else command) := by
      show apply_charge vehicle cs bat_load opt rest _ _ _ _ =
        apply_charge vehicle cs bat_load opt rest _ _ _ _
      rw [hpow0, hcl, hdelid b (opt - pl.1)]
      rw [show (0 : ℚ) + (opt - pl.1 - (opt - pl.1)) = 0 from by ring]
    rw [hstep]
    set ts1 := ts.set pl.2 { ts.getD pl.2 default with
      cur_power := (ts.getD pl.2 default).cur_power + (opt - pl.1) } with hts1
    have hlen1 : ts1.length = ts.length := by
      rw [hts1, List.length_set]
    have hmem2 : ∀ q ∈ rest, q.2 < ts1.length ∧ q.1 = (ts1.getD q.2 default).cur_power ∧
        q.1 ≤ opt ∧ opt ≤ (ts1.getD q.2 default).max_power ∧
        opt - q.1 ≤ cs.max_power := by
      intro q hq
      obtain ⟨h1, h2, h3, h4, h5⟩ := hmem q (List.mem_cons_of_mem pl hq)
      have hne : pl.2 ≠ q.2 := by
        intro hcontra
        exact hplnotin (hcontra ▸ List.mem_map_of_mem (fun pl => pl.2) hq)
      have hgd : ts1.getD q.2 default = ts.getD q.2 default := by
        rw [hts1]
        exact list_getD_set_ne _ _ _ _ hne
      rw [hgd]
      exact ⟨by rwa [hlen1], h2, h3, h4, h5⟩
    rw [ih ts1 (bat_load b (opt - pl.1)).2 (if pl.2 = 0 then opt - pl.1 else command)
      hmem2 hnd2]
    have hsum1 : (ts1.map (fun t => t.cur_power)).sum =
        (ts.map (fun t => t.cur_power)).sum + (opt - pl.1) := by
      rw [hts1, list_sum_map_set (fun t => t.cur_power) ts pl.2 _ hplen]
      dsimp only
      ring
    rw [hsum1]
    simp only [List.map_cons, List.sum_cons]
    ring


/-- Claim C2 (energy conservation): for a vehicle whose standing window
offers enough headroom (the sweep does not end in deficit, every window
ceiling dominates every window level) and where no device limit binds
(station and vehicle minima nonpositive, level gaps within the station
maximum, battery delivering exactly the request), the total energy added to
the window by fast_charge is within EPS of energy_needed; and when the
interpolation break fired the delivered energy equals energy_needed exactly.
Distinct window levels are assumed separated by at least EPS (otherwise the
EPS-tolerant level grouping of lines 248-250 itself introduces an error of
the order of EPS). -/
theorem c2_energy_conservation {B : Type} (EPS ts_per_hour : ℚ) (hEPS : 0 < EPS)
    (vehicle : Vehicle) (cs : ChargingStation) (eff : ℚ)
    (bat_load : B → ℚ → ℚ × B) (b : B)
    (arrival_idx depart_idx : ℕ) (energy_needed : ℚ) (timesteps : List TSInfo)
    (heff : 0 < eff) (htsph : 0 < ts_per_hour)
    (hneed : EPS < energy_needed)
    (harr : arrival_idx < depart_idx) (hdep : depart_idx ≤ timesteps.length)
    (hdelid : ∀ (b2 : B) (p : ℚ), (bat_load b2 p).1 = p)
    (hvmin : vehicle.vehicle_type.min_charging_power ≤ 0)
    (hcsmin : cs.min_power ≤ 0)
    (hcsmax : ∀ x ∈ fc_window arrival_idx depart_idx timesteps,
      ∀ y ∈ fc_window arrival_idx depart_idx timesteps,
        x.cur_power - y.cur_power ≤ cs.max_power)
    (hhead : ∀ t ∈ fc_window arrival_idx depart_idx timesteps,
      ∀ u ∈ fc_window arrival_idx depart_idx timesteps, u.cur_power ≤ t.max_power)
    (hsep : ∀ x ∈ fc_window arrival_idx depart_idx timesteps,
      ∀ y ∈ fc_window arrival_idx depart_idx timesteps,
        x.cur_power = y.cur_power ∨ EPS ≤ x.cur_power - y.cur_power ∨
          EPS ≤ y.cur_power - x.cur_power)
    (hsat : energy_needed -
        (fc_sweep EPS ts_per_hour eff energy_needed hEPS arrival_idx depart_idx
          timesteps).prev_energy ≤ EPS) :
    |(((fast_charge EPS ts_per_hour hEPS vehicle cs eff bat_load b arrival_idx depart_idx
          energy_needed timesteps).2.map (fun t => t.cur_power)).sum -
        (timesteps.map (fun t => t.cur_power)).sum) / (ts_per_hour / eff) -
      energy_needed| ≤ EPS ∧
    ((fc_sweep EPS ts_per_hour eff energy_needed hEPS arrival_idx depart_idx
        timesteps).broke = true →
      (((fast_charge EPS ts_per_hour hEPS vehicle cs eff bat_load b arrival_idx depart_idx
          energy_needed timesteps).2.map (fun t => t.cur_power)).sum -
        (timesteps.map (fun t => t.cur_power)).sum) / (ts_per_hour / eff) =
        energy_needed) := by
  have hc0 : (0 : ℚ) < ts_per_hour / eff := div_pos htsph heff
  have hcne : ts_per_hour / eff ≠ 0 := ne_of_gt hc0
  have hran : arrival_idx + (depart_idx - arrival_idx) ≤ timesteps.length := by omega
  have hlevlen : (fc_levels arrival_idx depart_idx timesteps).length =
      depart_idx - arrival_idx := by
    simp [fc_levels]
  have hlev0 : 0 < (fc_levels arrival_idx depart_idx timesteps).length := by
    rw [hlevlen]
    omega
  have hsortedL := fc_levels_sorted_fst arrival_idx depart_idx timesteps
  have hpermL := fc_perm arrival_idx depart_idx timesteps hran
  have hheadL : ∀ t ∈ fc_window arrival_idx depart_idx timesteps,
      ∀ l ∈ fc_levels arrival_idx depart_idx timesteps, l.1 ≤ t.max_power := by
    intro t ht l hl
    obtain ⟨u, hu, hl1⟩ := fc_levels_fst_mem_window arrival_idx depart_idx timesteps
      hran l hl
    rw [hl1]
    exact hhead t ht u hu
  have hsepL : ∀ x ∈ fc_levels arrival_idx depart_idx timesteps,
      ∀ y ∈ fc_levels arrival_idx depart_idx timesteps,
        x.1 = y.1 ∨ EPS ≤ x.1 - y.1 ∨ EPS ≤ y.1 - x.1 := by
    intro x hx y hy
    obtain ⟨u, hu, hx1⟩ := fc_levels_fst_mem_window arrival_idx depart_idx timesteps
      hran x hx
    obtain ⟨v, hv, hy1⟩ := fc_levels_fst_mem_window arrival_idx depart_idx timesteps
      hran y hy
    rw [hx1, hy1]
    exact hsep u hu v hv
  have hI6_0 : ∀ l ∈ (fc_levels arrival_idx depart_idx timesteps).drop 0,
      ((fc_levels arrival_idx depart_idx timesteps).getD 0 (0, 0)).1 ≤ l.1 :=
    sorted_drop_head_le _ hsortedL 0 hlev0
  have hILev0 : ∃ l ∈ fc_levels arrival_idx depart_idx timesteps,
      ((fc_levels arrival_idx depart_idx timesteps).getD 0 (0, 0)).1 = l.1 :=
    ⟨_, getD_mem_of_lt _ 0 hlev0, rfl⟩
  have hsat2 : energy_needed -
      (sweep EPS ts_per_hour eff energy_needed hEPS
        (fc_window arrival_idx depart_idx timesteps)
        (fc_levels arrival_idx depart_idx timesteps) 0
        ((fc_levels arrival_idx depart_idx timesteps).getD 0 (0, 0)).1 0 0).prev_energy
      ≤ EPS := hsat
  obtain ⟨hG, hU1, hU2, hBr, hP2, hP3, hI1e⟩ :=
    sweep_exit_characterization EPS ts_per_hour eff energy_needed hEPS
      (fc_window arrival_idx depart_idx timesteps)
      (fc_levels arrival_idx depart_idx timesteps) heff htsph hneed hsortedL hsepL
      hpermL hheadL 0 ((fc_levels arrival_idx depart_idx timesteps).getD 0 (0, 0)).1 0 0
      (Nat.zero_le _) (by simp) hI6_0 hILev0 (by simp) (by linarith)
      (fun hne => absurd rfl hne) hsat2
  have hopt : fc_opt_power EPS ts_per_hour eff energy_needed hEPS arrival_idx depart_idx
      timesteps =
      (fc_sweep EPS ts_per_hour eff energy_needed hEPS arrival_idx depart_idx
        timesteps).power := by
    rw [fc_opt_power]
    exact if_neg (not_lt.mpr hsat)
  have hfc : (fast_charge EPS ts_per_hour hEPS vehicle cs eff bat_load b arrival_idx
      depart_idx energy_needed timesteps).2 =
      (apply_charge vehicle cs bat_load
        (fc_sweep EPS ts_per_hour eff energy_needed hEPS arrival_idx depart_idx
          timesteps).power
        (List.insertionSort idx_le
          ((fc_levels arrival_idx depart_idx timesteps).take
            (fc_sweep EPS ts_per_hour eff energy_needed hEPS arrival_idx depart_idx
              timesteps).idx))
        timesteps b 0 0).2.1 := by
    rw [fast_charge, if_neg (by linarith : ¬ energy_needed ≤ 0)]
    dsimp only
    rw [hopt]
  have hpfxmem : ∀ pl ∈ List.insertionSort idx_le
      ((fc_levels arrival_idx depart_idx timesteps).take
        (fc_sweep EPS ts_per_hour eff energy_needed hEPS arrival_idx depart_idx
          timesteps).idx),
      pl.2 < timesteps.length ∧ pl.1 = (timesteps.getD pl.2 default).cur_power ∧
      pl.1 ≤ (fc_sweep EPS ts_per_hour eff energy_needed hEPS arrival_idx depart_idx
        timesteps).power ∧
      (fc_sweep EPS ts_per_hour eff energy_needed hEPS arrival_idx depart_idx
        timesteps).power ≤ (timesteps.getD pl.2 default).max_power ∧
      (fc_sweep EPS ts_per_hour eff energy_needed hEPS arrival_idx depart_idx
        timesteps).power - pl.1 ≤ cs.max_power := by
    intro pl hpl
    have h1 : pl ∈ (fc_levels arrival_idx depart_idx timesteps).take
        (fc_sweep EPS ts_per_hour eff energy_needed hEPS arrival_idx depart_idx
          timesteps).idx :=
      (List.mem_insertionSort idx_le).mp hpl
    have h2 : pl ∈ fc_levels arrival_idx depart_idx timesteps := List.mem_of_mem_take h1
    obtain ⟨i, ⟨hi1, hi2⟩, hpleq⟩ := (fc_levels_mem_iff _ _ _ _).mp h2
    obtain ⟨lstar, hlstar, hoptle⟩ := hP3
    obtain ⟨u, hu, hlu⟩ := fc_levels_fst_mem_window arrival_idx depart_idx timesteps
      hran lstar hlstar
    have htwin : timesteps.getD i default ∈ fc_window arrival_idx depart_idx timesteps :=
      fc_window_mem arrival_idx depart_idx timesteps hran i hi1 hi2
    have hple : pl.1 ≤ (fc_sweep EPS ts_per_hour eff energy_needed hEPS arrival_idx
        depart_idx timesteps).power := hP2 pl h1
    refine ⟨?_, ?_, hple, ?_, ?_⟩
    · rw [hpleq]
      dsimp only
      omega
    · rw [hpleq]
    · calc (fc_sweep EPS ts_per_hour eff energy_needed hEPS arrival_idx depart_idx
            timesteps).power ≤ lstar.1 := hoptle
        _ = u.cur_power := hlu
        _ ≤ (timesteps.getD pl.2 default).max_power := by
            rw [hpleq]
            exact hhead _ htwin u hu
    · have h5 := hcsmax u hu (timesteps.getD i default) htwin
      have h6 : (fc_sweep EPS ts_per_hour eff energy_needed hEPS arrival_idx depart_idx
          timesteps).power ≤ u.cur_power := by
        rw [← hlu]
        exact hoptle
      rw [hpleq]
      dsimp only
      linarith
  have hpfxnd : ((List.insertionSort idx_le
      ((fc_levels arrival_idx depart_idx timesteps).take
        (fc_sweep EPS ts_per_hour eff energy_needed hEPS arrival_idx depart_idx
          timesteps).idx)).map (fun pl => pl.2)).Nodup := by
    have hperm2 : (List.insertionSort idx_le
        ((fc_levels arrival_idx depart_idx timesteps).take
          (fc_sweep EPS ts_per_hour eff energy_needed hEPS arrival_idx depart_idx
            timesteps).idx)).Perm
        ((fc_levels arrival_idx depart_idx timesteps).take
          (fc_sweep EPS ts_per_hour eff energy_needed hEPS arrival_idx depart_idx
            timesteps).idx) :=
      List.perm_insertionSort _ _
    rw [List.Perm.nodup_iff (hperm2.map _)]
    have hsub := (List.take_sublist
      (fc_sweep EPS ts_per_hour eff energy_needed hEPS arrival_idx depart_idx
        timesteps).idx
      (fc_levels arrival_idx depart_idx timesteps)).map (fun pl : ℚ × ℕ => pl.2)
    exact (fc_levels_snd_nodup _ _ _).sublist hsub
  have hsum := apply_charge_sum_exact vehicle cs bat_load hdelid hvmin hcsmin
    (fc_sweep EPS ts_per_hour eff energy_needed hEPS arrival_idx depart_idx
      timesteps).power
    (List.insertionSort idx_le
      ((fc_levels arrival_idx depart_idx timesteps).take
        (fc_sweep EPS ts_per_hour eff energy_needed hEPS arrival_idx depart_idx
          timesteps).idx))
    timesteps b 0 hpfxmem hpfxnd
  have hperm3 := (List.perm_insertionSort idx_le
    ((fc_levels arrival_idx depart_idx timesteps).take
      (fc_sweep EPS ts_per_hour eff energy_needed hEPS arrival_idx depart_idx
        timesteps).idx)).map
    (fun pl : ℚ × ℕ =>
      (fc_sweep EPS ts_per_hour eff energy_needed hEPS arrival_idx depart_idx
        timesteps).power - pl.1)
  have hdeliv : (((fast_charge EPS ts_per_hour hEPS vehicle cs eff bat_load b arrival_idx
      depart_idx energy_needed timesteps).2.map (fun t => t.cur_power)).sum -
      (timesteps.map (fun t => t.cur_power)).sum) / (ts_per_hour / eff) =
      (fc_sweep EPS ts_per_hour eff energy_needed hEPS arrival_idx depart_idx
        timesteps).prev_energy := by
    rw [hfc, hsum, List.Perm.sum_eq hperm3]
    rw [show (timesteps.map (fun t => t.cur_power)).sum +
        (((fc_levels arrival_idx depart_idx timesteps).take
          (fc_sweep EPS ts_per_hour eff energy_needed hEPS arrival_idx depart_idx
            timesteps).idx).map
          (fun pl =>
            (fc_sweep EPS ts_per_hour eff energy_needed hEPS arrival_idx depart_idx
              timesteps).power - pl.1)).sum -
        (timesteps.map (fun t => t.cur_power)).sum =
        (((fc_levels arrival_idx depart_idx timesteps).take
          (fc_sweep EPS ts_per_hour eff energy_needed hEPS arrival_idx depart_idx
            timesteps).idx).map
          (fun pl =>
            (fc_sweep EPS ts_per_hour eff energy_needed hEPS arrival_idx depart_idx
              timesteps).power - pl.1)).sum from by ring]
    exact hG.symm
  have hU1f : energy_needed - EPS ≤
      (fc_sweep EPS ts_per_hour eff energy_needed hEPS arrival_idx depart_idx
        timesteps).prev_energy := hU1
  have hU2f : (fc_sweep EPS ts_per_hour eff energy_needed hEPS arrival_idx depart_idx
      timesteps).prev_energy ≤ energy_needed + EPS := hU2
  have hBrf : (fc_sweep EPS ts_per_hour eff energy_needed hEPS arrival_idx depart_idx
      timesteps).broke = true →
      (fc_sweep EPS ts_per_hour eff energy_needed hEPS arrival_idx depart_idx
        timesteps).prev_energy = energy_needed := hBr
  constructor
  · rw [hdeliv]
    rw [abs_le]
    constructor
    · linarith
    · linarith
  · intro hb
    rw [hdeliv]
    exact hBrf hb


/-- Witness for claim C2: two timesteps with cur_power 0 and 10 under a
ceiling of 100, energy need 5; the sweep breaks at the interpolated level 5
and fast_charge delivers exactly 5 energy units. -/
theorem c2_energy_conservation_witness :
    (0 : ℚ) < 1/1000 ∧
    (5 : ℚ) - (fc_sweep (1/1000) 1 1 5 (by norm_num) 0 2
      [⟨0, 100⟩, ⟨10, 100⟩]).prev_energy ≤ 1/1000 ∧
    (fc_sweep (1/1000) 1 1 5 (by norm_num) 0 2 [⟨0, 100⟩, ⟨10, 100⟩]).broke = true ∧
    |(((fast_charge (1/1000) 1 (by norm_num) ⟨⟨0, 100⟩⟩ ⟨0, 100⟩ 1
          (fun (b2 : Unit) p => (p, b2)) () 0 2 5
          [⟨0, 100⟩, ⟨10, 100⟩]).2.map (fun t => t.cur_power)).sum -
        (([⟨0, 100⟩, ⟨10, 100⟩] : List TSInfo).map (fun t => t.cur_power)).sum) /
        ((1 : ℚ) / 1) - 5| ≤ 1/1000 ∧
    (((fast_charge (1/1000) 1 (by norm_num) ⟨⟨0, 100⟩⟩ ⟨0, 100⟩ 1
          (fun (b2 : Unit) p => (p, b2)) () 0 2 5
          [⟨0, 100⟩, ⟨10, 100⟩]).2.map (fun t => t.cur_power)).sum -
        (([⟨0, 100⟩, ⟨10, 100⟩] : List TSInfo).map (fun t => t.cur_power)).sum) /
        ((1 : ℚ) / 1) = 5 := by
  have hsweep : fc_sweep (1/1000 : ℚ) 1 1 5 (by norm_num) 0 2 [⟨0, 100⟩, ⟨10, 100⟩] =
      ⟨1, 0, 5, 5, true⟩ := by
    rw [fc_sweep]
    have hl : fc_levels 0 2 [(⟨0, 100⟩ : TSInfo), ⟨10, 100⟩] =
        [((0 : ℚ), 0), ((10 : ℚ), 1)] := by
      simp [fc_levels, List.range', List.insertionSort, List.orderedInsert, lex_le]
    rw [hl]
    rw [sweep]
    norm_num
    rw [sweep]
    norm_num [window_energy, fc_window]
  have hsat : (5 : ℚ) - (fc_sweep (1/1000) 1 1 5 (by norm_num) 0 2
      [⟨0, 100⟩, ⟨10, 100⟩]).prev_energy ≤ 1/1000 := by
    rw [hsweep]
    norm_num
  have hw : fc_window 0 2 ([⟨0, 100⟩, ⟨10, 100⟩] : List TSInfo) =
      [⟨0, 100⟩, ⟨10, 100⟩] := rfl
  have hmain := c2_energy_conservation (B := Unit) (1/1000) 1 (by norm_num)
    ⟨⟨0, 100⟩⟩ ⟨0, 100⟩ 1 (fun b2 p => (p, b2)) () 0 2 5 [⟨0, 100⟩, ⟨10, 100⟩]
    (by norm_num) (by norm_num) (by norm_num) (by norm_num) (by norm_num)
    (fun b2 p => rfl) (by norm_num) (by norm_num)
    (by
      intro x hx y hy
      rw [hw] at hx hy
      fin_cases hx <;> fin_cases hy <;> norm_num)
    (by
      intro x hx y hy
      rw [hw] at hx hy
      fin_cases hx <;> fin_cases hy <;> norm_num)
    (by
      intro x hx y hy
      rw [hw] at hx hy
      fin_cases hx <;> fin_cases hy <;> norm_num)
    hsat
  refine ⟨by norm_num, hsat, ?_, hmain.1, hmain.2 ?_⟩
  · rw [hsweep]
  · rw [hsweep]


/-! ## Theorems for claims C4 and C3 (horizon truncation and ordering) -/

/-- Claim C4: a vehicle whose depart_idx strictly exceeds the horizon H has
its energy_needed multiplied by exactly (H - arrival_idx)/(depart_idx -
arrival_idx), its desired_soc moved toward the current SOC so that the
remaining gap is that same fraction of the original gap, and its depart_idx
clamped to H; and the scheduling body feeds exactly the truncated values to
the fill algorithm. -/
theorem c4_horizon_truncation :
    (∀ (H arrival_idx : ℕ) (depart_idx : ℤ) (energy_needed soc desired_soc : ℚ),
      (H : ℤ) < depart_idx →
      truncate_horizon H arrival_idx depart_idx energy_needed soc desired_soc =
        (energy_needed * (((H : ℚ) - (arrival_idx : ℚ)) /
            ((depart_idx : ℚ) - (arrival_idx : ℚ))),
          soc + (((H : ℚ) - (arrival_idx : ℚ)) /
            ((depart_idx : ℚ) - (arrival_idx : ℚ))) * (desired_soc - soc),
          (H : ℤ))) ∧
    (∀ (B : Type) (EPS ts_per_hour : ℚ) (hEPS : 0 < EPS) (vehicle : Vehicle)
        (cs : ChargingStation) (eff : ℚ) (bat_load : B → ℚ → ℚ × B) (b : B) (H : ℕ)
        (v : SchedVehicle) (timesteps : List TSInfo) (dep : ℤ),
      v.depart_idx = some dep → (v.arrival_idx : ℤ) < dep →
      process_vehicle EPS ts_per_hour hEPS vehicle cs eff bat_load b H v timesteps =
        (some (fast_charge EPS ts_per_hour hEPS vehicle cs eff bat_load b v.arrival_idx
          (truncate_horizon H v.arrival_idx dep (get_energy_needed v) v.soc
            v.desired_soc).2.2.toNat
          (truncate_horizon H v.arrival_idx dep (get_energy_needed v) v.soc
            v.desired_soc).1 timesteps).1,
         (fast_charge EPS ts_per_hour hEPS vehicle cs eff bat_load b v.arrival_idx
          (truncate_horizon H v.arrival_idx dep (get_energy_needed v) v.soc
            v.desired_soc).2.2.toNat
          (truncate_horizon H v.arrival_idx dep (get_energy_needed v) v.soc
            v.desired_soc).1 timesteps).2)) := by
  constructor
  · intro H arrival_idx depart_idx energy_needed soc desired_soc h
    rw [truncate_horizon, if_pos h]
  · intro B EPS ts_per_hour hEPS vehicle cs eff bat_load b H v timesteps dep hdep hlt
    simp only [process_vehicle, hdep]
    rw [if_neg (not_le.mpr hlt)]

/-- Witness for claim C4: horizon 4, window [0, 8): energy 10 becomes 5,
desired SOC 1 becomes 1/2 toward SOC 0, depart clamps to 4; and the loop
body equation at that vehicle. -/
theorem c4_horizon_truncation_witness :
    ((4 : ℤ) < 8) ∧
    truncate_horizon 4 0 8 10 0 1 = (5, 1/2, (4 : ℤ)) ∧
    process_vehicle (1/1000) 1 (by norm_num) ⟨⟨0, 100⟩⟩ ⟨0, 100⟩ 1
        (fun (b2 : Unit) p => (p, b2)) () 4 ⟨7, 0, some 8, 0, 1, 10⟩ [] =
      (some (fast_charge (1/1000) 1 (by norm_num) ⟨⟨0, 100⟩⟩ ⟨0, 100⟩ 1
          (fun (b2 : Unit) p => (p, b2)) () 0
          (truncate_horizon 4 0 8 (get_energy_needed ⟨7, 0, some 8, 0, 1, 10⟩) 0
            1).2.2.toNat
          (truncate_horizon 4 0 8 (get_energy_needed ⟨7, 0, some 8, 0, 1, 10⟩) 0
            1).1 []).1,
       (fast_charge (1/1000) 1 (by norm_num) ⟨⟨0, 100⟩⟩ ⟨0, 100⟩ 1
          (fun (b2 : Unit) p => (p, b2)) () 0
          (truncate_horizon 4 0 8 (get_energy_needed ⟨7, 0, some 8, 0, 1, 10⟩) 0
            1).2.2.toNat
          (truncate_horizon 4 0 8 (get_energy_needed ⟨7, 0, some 8, 0, 1, 10⟩) 0
            1).1 []).2) := by
  refine ⟨by norm_num, ?_, ?_⟩
  · rw [c4_horizon_truncation.1 4 0 8 10 0 1 (by norm_num)]
    norm_num
  · exact c4_horizon_truncation.2 Unit (1/1000) 1 (by norm_num) ⟨⟨0, 100⟩⟩ ⟨0, 100⟩ 1
      (fun (b2 : Unit) p => (p, b2)) () 4 ⟨7, 0, some 8, 0, 1, 10⟩ [] 8 rfl
      (by norm_num)

/-- Claim C3: the scheduler keeps only vehicles with a known depart_idx,
sorts them ascending by min(depart_idx, H) - arrival_idx, skips vehicles
without standing time untouched; and two vehicles with windows [0,2) and
[0,10) are ordered shorter-first from either input order, the shorter one
being water-filled first on the untouched projection, so its allocation does
not depend on the longer one. -/
theorem c3_scheduling_order :
    (∀ (H : ℕ) (arrivals : List SchedVehicle),
      ∀ v ∈ select_vehicles H arrivals, v.depart_idx.isSome = true) ∧
    (∀ (H : ℕ) (arrivals : List SchedVehicle),
      (select_vehicles H arrivals).Sorted (sched_le H)) ∧
    (∀ (B : Type) (EPS ts_per_hour : ℚ) (hEPS : 0 < EPS) (vehicle : Vehicle)
        (cs : ChargingStation) (eff : ℚ) (bat_load : B → ℚ → ℚ × B) (b : B) (H : ℕ)
        (v : SchedVehicle) (timesteps : List TSInfo) (dep : ℤ),
      v.depart_idx = some dep → dep ≤ (v.arrival_idx : ℤ) →
      process_vehicle EPS ts_per_hour hEPS vehicle cs eff bat_load b H v timesteps =
        (none, timesteps)) ∧
    (∀ (H : ℕ), 10 ≤ H →
      ∀ (idA idB : ℕ) (socA desA capA socB desB capB : ℚ),
      select_vehicles H [⟨idA, 0, some 2, socA, desA, capA⟩,
          ⟨idB, 0, some 10, socB, desB, capB⟩] =
        [⟨idA, 0, some 2, socA, desA, capA⟩, ⟨idB, 0, some 10, socB, desB, capB⟩] ∧
      select_vehicles H [⟨idB, 0, some 10, socB, desB, capB⟩,
          ⟨idA, 0, some 2, socA, desA, capA⟩] =
        [⟨idA, 0, some 2, socA, desA, capA⟩, ⟨idB, 0, some 10, socB, desB, capB⟩] ∧
      (∀ (B : Type) (EPS ts_per_hour : ℚ) (hEPS : 0 < EPS) (vehicle : Vehicle)
          (cs : ChargingStation) (eff : ℚ) (bat_load : B → ℚ → ℚ × B) (b : B)
          (timesteps : List TSInfo),
        (sched_vehicles EPS ts_per_hour hEPS vehicle cs eff bat_load b H
          [⟨idA, 0, some 2, socA, desA, capA⟩, ⟨idB, 0, some 10, socB, desB, capB⟩]
          timesteps).1.head? =
          some (idA, (fast_charge EPS ts_per_hour hEPS vehicle cs eff bat_load b 0 2
            (capA * (desA - socA)) timesteps).1))) := by
  refine ⟨?_, ?_, ?_, ?_⟩
  · intro H arrivals v hv
    rw [select_vehicles, List.mem_insertionSort] at hv
    exact (List.mem_filter.mp hv).2
  · intro H arrivals
    exact List.sorted_insertionSort (sched_le H) _
  · intro B EPS ts_per_hour hEPS vehicle cs eff bat_load b H v timesteps dep hdep hge
    simp only [process_vehicle, hdep]
    rw [if_pos hge]
  · intro H hH idA idB socA desA capA socB desB capB
    have hkA : sched_key H ⟨idA, 0, some 2, socA, desA, capA⟩ = 2 := by
      simp only [sched_key, Option.getD_some]
      omega
    have hkB : sched_key H ⟨idB, 0, some 10, socB, desB, capB⟩ = 10 := by
      simp only [sched_key, Option.getD_some]
      omega
    have hle : sched_le H ⟨idA, 0, some 2, socA, desA, capA⟩
        ⟨idB, 0, some 10, socB, desB, capB⟩ := by
      show sched_key H _ ≤ sched_key H _
      rw [hkA, hkB]
      omega
    have hnle : ¬ sched_le H ⟨idB, 0, some 10, socB, desB, capB⟩
        ⟨idA, 0, some 2, socA, desA, capA⟩ := by
      show ¬ sched_key H _ ≤ sched_key H _
      rw [hkA, hkB]
      omega
    have hnotr : ¬ (H : ℤ) < 2 := by omega
    refine ⟨?_, ?_, ?_⟩
    · simp [select_vehicles, List.insertionSort, List.orderedInsert, hle]
    · simp [select_vehicles, List.insertionSort, List.orderedInsert, hnle]
    · intro B EPS ts_per_hour hEPS vehicle cs eff bat_load b timesteps
      have hproc : process_vehicle EPS ts_per_hour hEPS vehicle cs eff bat_load b H
          ⟨idA, 0, some 2, socA, desA, capA⟩ timesteps =
          (some (fast_charge EPS ts_per_hour hEPS vehicle cs eff bat_load b 0 2
            (capA * (desA - socA)) timesteps).1,
           (fast_charge EPS ts_per_hour hEPS vehicle cs eff bat_load b 0 2
            (capA * (desA - socA)) timesteps).2) := by
        simp only [process_vehicle]
        rw [if_neg (by norm_num : ¬ ((0 : ℕ) : ℤ) ≥ 2)]
        simp only [get_energy_needed, truncate_horizon]
        rw [if_neg hnotr]
        rfl
      rw [sched_vehicles, hproc]
      rfl


/-- Witness for claim C3: with horizon 24, vehicles with windows [0,2) and
[0,10) sort shorter-first from either input order, a vehicle with
arrival_idx 5 and depart_idx 2 is skipped untouched, and the [0,2) vehicle's
command is the fill of the untouched projection. -/
theorem c3_scheduling_order_witness :
    ((10 : ℕ) ≤ 24) ∧
    (select_vehicles 24 [⟨1, 0, some 2, 0, 1, 10⟩, ⟨2, 0, some 10, 0, 1, 10⟩] =
      [⟨1, 0, some 2, 0, 1, 10⟩, ⟨2, 0, some 10, 0, 1, 10⟩]) ∧
    (select_vehicles 24 [⟨2, 0, some 10, 0, 1, 10⟩, ⟨1, 0, some 2, 0, 1, 10⟩] =
      [⟨1, 0, some 2, 0, 1, 10⟩, ⟨2, 0, some 10, 0, 1, 10⟩]) ∧
    (process_vehicle (1/1000) 1 (by norm_num) ⟨⟨0, 100⟩⟩ ⟨0, 100⟩ 1
        (fun (b2 : Unit) p => (p, b2)) () 24 ⟨3, 5, some 2, 0, 1, 10⟩ [] = (none, [])) ∧
    ((sched_vehicles (1/1000) 1 (by norm_num) ⟨⟨0, 100⟩⟩ ⟨0, 100⟩ 1
        (fun (b2 : Unit) p => (p, b2)) () 24
        [⟨1, 0, some 2, 0, 1, 10⟩, ⟨2, 0, some 10, 0, 1, 10⟩] []).1.head? =
      some (1, (fast_charge (1/1000) 1 (by norm_num) ⟨⟨0, 100⟩⟩ ⟨0, 100⟩ 1
        (fun (b2 : Unit) p => (p, b2)) () 0 2 ((10 : ℚ) * (1 - 0)) []).1)) := by
  obtain ⟨h1, h2, h3, h4⟩ := c3_scheduling_order
  obtain ⟨d1, d2, d3⟩ := h4 24 (by norm_num) 1 2 0 1 10 0 1 10
  refine ⟨by norm_num, d1, d2, ?_, ?_⟩
  · exact h3 Unit (1/1000) 1 (by norm_num) ⟨⟨0, 100⟩⟩ ⟨0, 100⟩ 1
      (fun (b2 : Unit) p => (p, b2)) () 24 ⟨3, 5, some 2, 0, 1, 10⟩ [] 2 rfl
      (by norm_num)
  · exact d3 Unit (1/1000) 1 (by norm_num) ⟨⟨0, 100⟩⟩ ⟨0, 100⟩ 1
      (fun (b2 : Unit) p => (p, b2)) () []

end SpiceEV
